import Mathlib

/-!
# Verification of the space-game planet-mesh core (`src/planet.ts`)

Shallow embedding of the quad-patch subdivision engine: `NoiseParams`
(octave noise wrapper), `Vertex` and its two cut operations, `PatchBuilder`
(`subdivide`, `subdivideSurface`, `displace`) and `PlanetManager.tick`.

Modelling conventions:
* JavaScript `number`s are modelled as real numbers `ℝ`; Babylon `Vector3`
  is `V3 := ℝ × ℝ × ℝ` with componentwise operations and the Euclidean
  length `V3.len` (`Math.sqrt` of the sum of squares), matching Babylon's
  `length`, `normalize`, `Distance` and `DistanceSquared`.
* In-place mutation is modelled by explicit state passing: `sample3D`
  returns the pair (result, final coordinate) because the source mutates
  the caller's coordinate via `multiplyInPlace`/`scaleInPlace`;
  `PatchBuilder` methods map a `Patch` value to a new `Patch` value.
* Vertex parent references (`parentL`/`parentR` object pointers in the
  source) are modelled as optional indices into the patch's vertex
  sequence, the arena-and-index representation the spec itself prescribes
  (§9).  All vertices of one patch live in a single growing array, so the
  two views agree.
* Mesh upload, materials, textures and the scene are out of scope; what
  `tick` would regenerate is reported as a list of `RegenAction`s.
-/

noncomputable section

namespace SpaceGame

/-- Babylon `Vector3`, as a triple of reals. -/
abbrev V3 : Type := ℝ × ℝ × ℝ

/-- Babylon `Vector2`, as a pair of reals. -/
abbrev V2 : Type := ℝ × ℝ

namespace V3

/-- `Vector3(x, y, z)`. -/
def mk3 (x y z : ℝ) : V3 := (x, y, z)

/-- x component. -/
def x (a : V3) : ℝ := a.1

/-- y component. -/
def y (a : V3) : ℝ := a.2.1

/-- z component. -/
def z (a : V3) : ℝ := a.2.2

/-- Componentwise product, Babylon's `multiplyInPlace` (value thereof). -/
def hadamard (a b : V3) : V3 := (a.1 * b.1, a.2.1 * b.2.1, a.2.2 * b.2.2)

/-- `Vector3.length()`: Euclidean length. -/
def len (a : V3) : ℝ := Real.sqrt (a.1 ^ 2 + a.2.1 ^ 2 + a.2.2 ^ 2)

/-- Babylon `normalize()`: scale by the reciprocal length; a zero vector
(zero length) is returned unchanged. -/
def normalize (a : V3) : V3 := if len a = 0 then a else (1 / len a) • a

/-- `Vector3.Distance(a, b)`. -/
def dist3 (a b : V3) : ℝ := len (a - b)

/-- `Vector3.DistanceSquared(a, b)`. -/
def distSq (a b : V3) : ℝ :=
  (a.1 - b.1) ^ 2 + (a.2.1 - b.2.1) ^ 2 + (a.2.2 - b.2.2) ^ 2

/-- `a.add(b).scale(0.5)`, the midpoint used for block/texture coordinates. -/
def mid (a b : V3) : V3 := (0.5 : ℝ) • (a + b)

end V3

/-- One LOD tier: `(distance, subdivisions)`. -/
structure Lod where
  distance : ℝ
  subdivisions : ℕ

/-- The `for (const lod of lods) if (distance < lod.distance) { … break }`
scan: first tier whose threshold exceeds the distance wins; the result is
`0` when no tier matches (in the source the variable then stays
`undefined`/`0`, which is falsy either way). -/
def scanLods : List Lod → ℝ → ℕ
  | [], _ => 0
  | lod :: rest, d => if d < lod.distance then lod.subdivisions else scanLods rest d

/-- Maximum subdivision depth appearing in a tier list. -/
def maxDepth (lods : List Lod) : ℕ :=
  lods.foldr (fun l acc => max l.subdivisions acc) 0

/-- `NoiseParams`: octave-summation wrapper around an external 3D noise
primitive `func`.  Field defaults in the source: `allowNegative = true`,
`offset = 0`, `amplitude = 1`, `frequency = One`, `octaveScale = 2`,
`octaveAmplitude = 0.8`. -/
structure NoiseParams where
  func : V3 → ℝ
  allowNegative : Bool
  offset : ℝ
  amplitude : ℝ
  frequency : V3
  octaveScale : ℝ
  octaveAmplitude : ℝ

/-- `new NoiseParams()` with the given external noise primitive. -/
def NoiseParams.default (f : V3 → ℝ) : NoiseParams :=
  { func := f, allowNegative := true, offset := 0, amplitude := 1
    frequency := (1, 1, 1), octaveScale := 2, octaveAmplitude := 0.8 }

namespace NoiseParams

/-- The per-octave noise value: `func` at the coordinate, remapped from
[-1,1] to [0,1] when `allowNegative` is false (the two `value` lines of
the loop body). -/
def octaveVal (p : NoiseParams) (c : V3) : ℝ :=
  if p.allowNegative then p.func c else p.func c * 0.5 + 0.5

/-- The octave loop of `sample3D`.  One step accumulates
`octaveVal * amplitude`, then multiplies the amplitude by
`octaveAmplitude` and the coordinate by `octaveScale` — exactly the loop
body order of the source.  The final (mutated) coordinate is returned
alongside the accumulated result. -/
def sample3Dgo (p : NoiseParams) : ℕ → V3 → ℝ → ℝ → ℝ × V3
  | 0, coord, _, result => (result, coord)
  | n + 1, coord, amplitude, result =>
    sample3Dgo p n (p.octaveScale • coord) (amplitude * p.octaveAmplitude)
      (result + p.octaveVal coord * amplitude)

/-- `sample3D(coord, detail)`.  The source first multiplies the caller's
coordinate in place by `frequency`, then runs the octave loop
`for (let i = 0; i < detail; i++)`, which for a real `detail` executes
`⌈detail⌉` (at least 0) iterations.  The returned pair is
(result, final state of the caller's coordinate object). -/
def sample3D (p : NoiseParams) (coord : V3) (detail : ℝ) : ℝ × V3 :=
  p.sample3Dgo (Int.toNat ⌈detail⌉) (V3.hadamard coord p.frequency) p.amplitude p.offset

end NoiseParams

/-- Concrete noise parameters exhibiting the in-place coordinate mutation
of `sample3D`: frequency `(2,2,2)`. -/
def mutParams : NoiseParams :=
  { func := fun _ => 0, allowNegative := true, offset := 0, amplitude := 1
    frequency := (2, 2, 2), octaveScale := 2, octaveAmplitude := 0.8 }

/-- A mesh vertex: position plus the bookkeeping used by the adaptive
refinement (`edge`, `centerPiece`, subdivision `depth`, and the two
parent references, modelled as indices into the owning patch's vertex
sequence). -/
structure Vertex where
  position : V3
  edge : Bool
  centerPiece : Bool
  depth : ℕ
  parentL : Option ℕ
  parentR : Option ℕ

instance : Inhabited Vertex := ⟨⟨0, false, false, 0, none, none⟩⟩

namespace Vertex

/-- `cutSphere(other, radius, edge?, centerPiece?)`: new position is
`normalize(a.position + b.position)` scaled in place by `radius`; depth is
`max + 1`, decremented when `edge === false`; `edge` defaults to
`a.edge && b.edge` and `centerPiece` to `false` (nullish coalescing).
`pL`/`pR` are the indices at which the source's `parentL = this` /
`parentR = other` object references point into the patch's vertex
array. -/
def cutSphere (a b : Vertex) (radius : ℝ) (edge? centerPiece? : Option Bool)
    (pL pR : Option ℕ) : Vertex :=
  { position := radius • V3.normalize (a.position + b.position)
    edge := edge?.getD (a.edge && b.edge)
    centerPiece := centerPiece?.getD false
    depth := if edge? = some false then max a.depth b.depth + 1 - 1
             else max a.depth b.depth + 1
    parentL := pL, parentR := pR }

/-- `cutLinear(other, edge?, centerPiece?)`: plain midpoint, no
renormalization; the bookkeeping is identical to `cutSphere`. -/
def cutLinear (a b : Vertex) (edge? centerPiece? : Option Bool)
    (pL pR : Option ℕ) : Vertex :=
  { position := (0.5 : ℝ) • (a.position + b.position)
    edge := edge?.getD (a.edge && b.edge)
    centerPiece := centerPiece?.getD false
    depth := if edge? = some false then max a.depth b.depth + 1 - 1
             else max a.depth b.depth + 1
    parentL := pL, parentR := pR }

end Vertex

/-- A root cube corner vertex used as concrete witness input. -/
def vA : Vertex := ⟨(1, 0, 0), true, false, 0, none, none⟩

/-- A second root cube corner vertex used as concrete witness input. -/
def vB : Vertex := ⟨(0, 1, 0), true, false, 0, none, none⟩

/-- The planet data the core algorithms read: radius, the adaptive-LOD
threshold `atmosphere`, world position and the height noise field.
(Colors, textures and the mesh handle are renderer-side and out of
scope.) -/
structure Planet where
  radius : ℝ
  atmosphere : ℝ
  position : V3
  heightParams : NoiseParams

instance : Inhabited Planet :=
  ⟨{ radius := 0, atmosphere := 0, position := 0
     heightParams := NoiseParams.default fun _ => 0 }⟩

/-- The `Planet` constructor: `atmosphere = radius * 1.5`, position starts
at the origin, and the height field defaults to a fresh noise with
`amplitude = radius * 0.01` when no `options.height` is supplied (`f` is
the external noise primitive such a fresh field would wrap). -/
def Planet.new (radius : ℝ) (height? : Option NoiseParams) (f : V3 → ℝ) : Planet :=
  { radius := radius, atmosphere := radius * 1.5, position := 0
    heightParams := height?.getD { NoiseParams.default f with amplitude := radius * 0.01 } }

/-- `Planet.heightAt(coord, detail)`: the height noise sample value. -/
def Planet.heightAt (pl : Planet) (coord : V3) (detail : ℝ) : ℝ :=
  (pl.heightParams.sample3D coord detail).1

/-- What a tick would regenerate for one planet: the adaptive surface
mesh, or a uniform mesh at some subdivision count. -/
inductive RegenAction
  | surface (idx : ℕ)
  | mesh (idx : ℕ) (subdivisions : ℕ)
deriving DecidableEq

/-- `PlanetManager`: the moving viewpoint `target`, the managed planets,
the two tier tables, the regeneration epsilon and the stored reference
position. -/
structure PlanetManager where
  target : V3
  planets : List Planet
  viewDistance : ℝ
  surfaceLods : List Lod
  lods : List Lod
  epsilon : ℝ
  lastPosition : Option V3

/-- The `PlanetManager` constructor: no planets yet, the fixed default
tier tables, `epsilon = 1.0`, and no stored reference position. -/
def PlanetManager.new (target : V3) : PlanetManager :=
  { target := target, planets := [], viewDistance := 10
    surfaceLods := [⟨5, 9⟩, ⟨10, 8⟩, ⟨20, 7⟩, ⟨30, 6⟩, ⟨50, 5⟩, ⟨200, 4⟩]
    lods := [⟨200, 4⟩, ⟨1000, 3⟩, ⟨2000, 2⟩, ⟨5000, 1⟩]
    epsilon := 1, lastPosition := none }

/-- The per-planet body of the tick loop: inside the atmosphere the
adaptive surface mesh is rebuilt; otherwise the far tier table picks a
uniform subdivision count, and a falsy (`undefined` or `0`) count means
no regeneration. -/
def processPlanet (m : PlanetManager) (i : ℕ) : Option RegenAction :=
  let p := m.planets.getD i default
  let distance := V3.dist3 m.target p.position
  if distance < p.atmosphere then some (.surface i)
  else
    match scanLods m.lods distance with
    | 0 => none
    | Nat.succ s => some (.mesh i (s + 1))

/-- The regeneration work of one unthrottled tick, planet by planet. -/
def PlanetManager.tickActions (m : PlanetManager) : List RegenAction :=
  (List.range m.planets.length).filterMap (processPlanet m)

/-- `PlanetManager.tick`: return immediately when a reference position is
stored and the viewpoint has moved less than epsilon (squared-distance
comparison in the source); otherwise process every planet and store the
current viewpoint as the new reference position. -/
def PlanetManager.tick (m : PlanetManager) : PlanetManager × List RegenAction :=
  match m.lastPosition with
  | some lp =>
    if V3.distSq m.target lp < m.epsilon * m.epsilon then (m, [])
    else ({ m with lastPosition := some m.target }, m.tickActions)
  | none => ({ m with lastPosition := some m.target }, m.tickActions)

/-- Manager state used as C9 witness input: reference position equal to
the viewpoint (no movement). -/
def mStill : PlanetManager :=
  { PlanetManager.new (0, 0, 0) with lastPosition := some (0, 0, 0) }

/-- Manager state used as C9 witness input: the viewpoint has moved 5
units from the stored reference. -/
def mMoved : PlanetManager :=
  { PlanetManager.new (0, 0, 0) with lastPosition := some (5, 0, 0) }

/-- A quad: four indices into the patch's parallel sequences. -/
abbrev Quad : Type := ℕ × ℕ × ℕ × ℕ

/-- The state a `PatchBuilder` owns: parallel sequences of vertices,
pre-displacement cube-space block coordinates and texture coordinates,
plus the current quads. -/
structure Patch where
  vertices : List Vertex
  blockCoords : List V3
  texCoords : List V2
  quads : List Quad

/-- The displacement move: `position + normalize(position) * height`
(`normalizeToNew` followed by `addInPlace(normal.scale(height))`). -/
def applyHeight (p : V3) (h : ℝ) : V3 := p + h • V3.normalize p

/-- A vertex after the displacement move. -/
def moveVertex (v : Vertex) (h : ℝ) : Vertex :=
  { v with position := applyHeight v.position h }

/-- The body of `displace`'s loop for vertex `i`.  Control flow mirrors
the source exactly: in adaptive mode a non-centerpoint vertex whose
depth exceeds the (truthy) tier scan result tries the parent blend; a
missing parent or a parent whose radial length is `0` (both falsy in
`!l || !r`) makes the loop `continue`, leaving the vertex untouched; a
blended height of exactly `0` is also falsy in `if (!height)`, so the
noise height is sampled instead.  The noise branch samples the height
field at block coordinate `i` with `detail = 1 + depth / 2` and also
records the coordinate mutation `sample3D` performs on that entry. -/
def displaceStep (pl : Planet) (target? : Option V3) (lods? : Option (List Lod))
    (st : Patch) (i : ℕ) : Patch :=
  let v := st.vertices.getD i default
  let noise : Patch :=
    let res := pl.heightParams.sample3D (st.blockCoords.getD i default)
      (1 + (v.depth : ℝ) / 2)
    { st with vertices := st.vertices.set i (moveVertex v res.1)
              blockCoords := st.blockCoords.set i res.2 }
  match target?, lods? with
  | some target, some lods =>
    if v.centerPiece then noise
    else
      let distance := V3.dist3 target (v.position + pl.position)
      let subdivisions := scanLods lods distance
      if subdivisions ≠ 0 ∧ subdivisions < v.depth then
        match v.parentL, v.parentR with
        | some jL, some jR =>
          let l := V3.len ((st.vertices.getD jL default).position)
          let r := V3.len ((st.vertices.getD jR default).position)
          if l = 0 ∨ r = 0 then st
          else if (l + r) * 0.5 - pl.radius = 0 then noise
          else { st with vertices := st.vertices.set i (moveVertex v ((l + r) * 0.5 - pl.radius)) }
        | _, _ => st
      else noise
  | _, _ => noise

/-- The state of the patch after `displace` has processed vertices
`0, …, k-1` (the loop runs in index order over a vertex array whose
length never changes, only `set` updates). -/
def displaceUpTo (pl : Planet) (target? : Option V3) (lods? : Option (List Lod))
    (st : Patch) (k : ℕ) : Patch :=
  (List.range k).foldl (displaceStep pl target? lods?) st

/-- `PatchBuilder.displace(target?, lods?)`. -/
def displace (pl : Planet) (target? : Option V3) (lods? : Option (List Lod))
    (st : Patch) : Patch :=
  displaceUpTo pl target? lods? st st.vertices.length

/-- The radial length of vertex `j`'s position in the state the
displacement loop has reached just before processing vertex `i` — what
the source's `vertex.parentL?.position.length()` reads when `parentL`
points at slot `j`, slots below `i` having already been displaced. -/
def parentLen (pl : Planet) (t? : Option V3) (l? : Option (List Lod))
    (st : Patch) (i j : ℕ) : ℝ :=
  V3.len ((displaceUpTo pl t? l? st i).vertices.getD j default).position

/-- Constant-1 height noise: unit amplitude, unit frequency and octave
factors, noise primitive constantly 1. -/
def cexParams : NoiseParams :=
  { func := fun _ => 1, allowNegative := true, offset := 0, amplitude := 1
    frequency := (1, 1, 1), octaveScale := 1, octaveAmplitude := 1 }

/-- Radius-1 planet at the origin with the constant-1 height field. -/
def cexPlanet : Planet :=
  { radius := 1, atmosphere := 1.5, position := 0, heightParams := cexParams }

/-- A single LOD tier: distance 100, subdivision depth 1. -/
def cexLods : List Lod := [⟨100, 1⟩]

/-- The viewpoint used in the displacement examples. -/
def t0 : V3 := ((0 : ℝ), (0 : ℝ), (0 : ℝ))

/-- The spherical midpoint of `vA` and `vB` (exactly
`vA.cutSphere vB` would produce: `normalize((1,0,0)+(0,1,0))` on the unit
sphere), bookkept at depth 2 with parents at slots 0 and 1. -/
def vC : Vertex :=
  ⟨(Real.sqrt 2 / 2, Real.sqrt 2 / 2, (0 : ℝ)), true, false, 2, some 0, some 1⟩

/-- Three-vertex patch: the two unit parents followed by their midpoint
vertex `vC`. -/
def cexPatch : Patch :=
  { vertices := [vA, vB, vC]
    blockCoords := [((1 : ℝ), (0 : ℝ), (0 : ℝ)), ((0 : ℝ), (1 : ℝ), (0 : ℝ)),
      (Real.sqrt 2 / 2, Real.sqrt 2 / 2, (0 : ℝ))]
    texCoords := [], quads := [] }

/-- A depth-2 vertex whose parent references are absent. -/
def vOrphan : Vertex := ⟨((1 : ℝ), (0 : ℝ), (0 : ℝ)), true, false, 2, none, none⟩

/-- One-vertex patch holding the orphan vertex. -/
def orphanPatch : Patch :=
  { vertices := [vOrphan], blockCoords := [((1 : ℝ), (0 : ℝ), (0 : ℝ))]
    texCoords := [], quads := [] }

/-- Height noise whose every sample is `-2`: zero noise primitive, offset
`-2` (a legal `NoiseParams` configuration per the spec, which lets offset
and amplitude be arbitrary constants). -/
def flipParams : NoiseParams :=
  { func := fun _ => 0, allowNegative := true, offset := -2, amplitude := 1
    frequency := (1, 1, 1), octaveScale := 2, octaveAmplitude := 0.8 }

/-- Radius-1 planet at the origin with the constant `-2` height field. -/
def flipPlanet : Planet :=
  { radius := 1, atmosphere := 1.5, position := 0, heightParams := flipParams }

/-- One-vertex patch holding the root vertex `(1,0,0)`. -/
def flipPatch : Patch :=
  { vertices := [vA], blockCoords := [((1 : ℝ), (0 : ℝ), (0 : ℝ))]
    texCoords := [], quads := [] }

/-- Midpoint of two texture coordinates (`a.add(b).scale(0.5)`). -/
def midV2 (a b : V2) : V2 := (0.5 : ℝ) • (a + b)

/-- The body of `subdivide`'s loop for one quad `(i,j,k,l)`: cut the four
edges and the diagonal spherically (the diagonal cut forced
`edge = false`, `centerPiece = true`, its parents being the `ab` and `cd`
cuts about to land at slots `n+1` and `n+3`), push the five new entries
onto each parallel sequence, and append the four replacement quads. -/
def subStep (radius : ℝ) (st : Patch) (q : Quad) : Patch :=
  let i := q.1
  let j := q.2.1
  let k := q.2.2.1
  let l := q.2.2.2
  let n := st.vertices.length
  let a := st.vertices.getD i default
  let b := st.vertices.getD j default
  let c := st.vertices.getD k default
  let d := st.vertices.getD l default
  let ab := a.cutSphere b radius none none (some i) (some j)
  let bc := b.cutSphere c radius none none (some j) (some k)
  let cd := c.cutSphere d radius none none (some k) (some l)
  let da := d.cutSphere a radius none none (some l) (some i)
  let abcd := ab.cutSphere cd radius (some false) (some true) (some (n + 1)) (some (n + 3))
  let ba := st.blockCoords.getD i default
  let bb := st.blockCoords.getD j default
  let bk := st.blockCoords.getD k default
  let bl := st.blockCoords.getD l default
  let mab := V3.mid ba bb
  let mbc := V3.mid bb bk
  let mcd := V3.mid bk bl
  let mda := V3.mid bl ba
  let mabcd := V3.mid mab mcd
  let ta := st.texCoords.getD i default
  let tb := st.texCoords.getD j default
  let tk := st.texCoords.getD k default
  let tl := st.texCoords.getD l default
  let tab := midV2 ta tb
  let tbc := midV2 tb tk
  let tcd := midV2 tk tl
  let tda := midV2 tl ta
  let tabcd := midV2 tab tcd
  { vertices := st.vertices ++ [abcd, ab, bc, cd, da]
    blockCoords := st.blockCoords ++ [mabcd, mab, mbc, mcd, mda]
    texCoords := st.texCoords ++ [tabcd, tab, tbc, tcd, tda]
    quads := st.quads ++ [(i, n + 1, n, n + 4), (j, n + 2, n, n + 1),
      (k, n + 3, n, n + 2), (l, n + 4, n, n + 3)] }

/-- `PatchBuilder.subdivide()`: process every current quad in order,
building the replacement quad list from scratch. -/
def subdivide (radius : ℝ) (p : Patch) : Patch :=
  p.quads.foldl (subStep radius) { p with quads := [] }

/-- `d` uniform subdivision passes. -/
def subdivideIter (radius : ℝ) : ℕ → Patch → Patch
  | 0, p => p
  | d + 1, p => subdivideIter radius d (subdivide radius p)

/-- The `rectDistance` closure of `subdivideSurface`: distance from a
point to an axis-aligned box (0 inside). -/
def rectDistance (mn mx p : V3) : ℝ :=
  let dx := max (mn.1 - p.1) (max 0 (p.1 - mx.1))
  let dy := max (mn.2.1 - p.2.1) (max 0 (p.2.1 - mx.2.1))
  let dz := max (mn.2.2 - p.2.2) (max 0 (p.2.2 - mx.2.2))
  Real.sqrt (dx * dx + dy * dy + dz * dz)

/-- The body of `subdivideSurface`'s loop for one quad: compute the
world-space bounding box of its four corners, the distance from the
target to that box, and the required depth via the tier scan; keep the
quad verbatim when `count >= subdivisions`, otherwise subdivide it
exactly as `subStep` does and raise the `subdivided` flag. -/
def surfStep (pl : Planet) (target : V3) (lods : List Lod) (count : ℕ)
    (st : Patch × Bool) (q : Quad) : Patch × Bool :=
  let a := st.1.vertices.getD q.1 default
  let b := st.1.vertices.getD q.2.1 default
  let c := st.1.vertices.getD q.2.2.1 default
  let d := st.1.vertices.getD q.2.2.2 default
  let mn : V3 := (min a.position.1 (min b.position.1 (min c.position.1 d.position.1)),
    min a.position.2.1 (min b.position.2.1 (min c.position.2.1 d.position.2.1)),
    min a.position.2.2 (min b.position.2.2 (min c.position.2.2 d.position.2.2)))
  let mx : V3 := (max a.position.1 (max b.position.1 (max c.position.1 d.position.1)),
    max a.position.2.1 (max b.position.2.1 (max c.position.2.1 d.position.2.1)),
    max a.position.2.2 (max b.position.2.2 (max c.position.2.2 d.position.2.2)))
  let distance := rectDistance (mn + pl.position) (mx + pl.position) target
  let subdivisions := scanLods lods distance
  if count ≥ subdivisions then ({ st.1 with quads := st.1.quads ++ [q] }, st.2)
  else (subStep pl.radius st.1 q, true)

/-- `PatchBuilder.subdivideSurface(target, lods, count)`: the parallel
sequences grow in place; the quad list is replaced by the newly built one
only when at least one quad was subdivided.  Returns the new patch and
the `subdivided` flag. -/
def subdivideSurface (pl : Planet) (target : V3) (lods : List Lod) (count : ℕ)
    (p : Patch) : Patch × Bool :=
  let st := p.quads.foldl (surfStep pl target lods count) ({ p with quads := [] }, false)
  if st.2 then (st.1, true) else ({ st.1 with quads := p.quads }, false)

/-- The driver loop of `createSurfaceMesh`: keep calling
`subdivideSurface` with depth counters `count, count+1, …` until it
reports no subdivision (`fuel` bounds the iterations; the claim is that
any fuel past the tier table's maximum depth gives the same result). -/
def surfaceLoop (pl : Planet) (target : V3) (lods : List Lod) :
    ℕ → Patch → ℕ → Patch
  | 0, p, _ => p
  | fuel + 1, p, count =>
    let res := subdivideSurface pl target lods count p
    if res.2 then surfaceLoop pl target lods fuel res.1 (count + 1) else res.1

/-- The dyadic grid point `qv + (a/2^d)·u + (b/2^d)·v` of the root cell
spanned by `u` and `v` from corner `qv`, at refinement level `d`. -/
def gridPt (qv u v : V3) (d a b : ℕ) : V3 :=
  qv + ((a : ℝ) / 2 ^ d) • u + ((b : ℝ) / 2 ^ d) • v

/-- `u` and `v` span the root cell non-degenerately. -/
def indepUV (u v : V3) : Prop :=
  ∀ s t : ℝ, s • u + t • v = 0 → s = 0 ∧ t = 0

/-- The ordered corner tuple `(c0, c1, c2, c3)` walks the boundary of the
level-`d` grid cell `(m1, m2)`, starting at any of its four corners (the
four cyclic rotations created by the recursive quad split, which always
preserves winding). -/
def IsCellAt (qv u v : V3) (d m1 m2 : ℕ) (c0 c1 c2 c3 : V3) : Prop :=
  (c0 = gridPt qv u v d m1 m2 ∧ c1 = gridPt qv u v d (m1 + 1) m2 ∧
    c2 = gridPt qv u v d (m1 + 1) (m2 + 1) ∧ c3 = gridPt qv u v d m1 (m2 + 1)) ∨
  (c0 = gridPt qv u v d (m1 + 1) m2 ∧ c1 = gridPt qv u v d (m1 + 1) (m2 + 1) ∧
    c2 = gridPt qv u v d m1 (m2 + 1) ∧ c3 = gridPt qv u v d m1 m2) ∨
  (c0 = gridPt qv u v d (m1 + 1) (m2 + 1) ∧ c1 = gridPt qv u v d m1 (m2 + 1) ∧
    c2 = gridPt qv u v d m1 m2 ∧ c3 = gridPt qv u v d (m1 + 1) m2) ∨
  (c0 = gridPt qv u v d m1 (m2 + 1) ∧ c1 = gridPt qv u v d m1 m2 ∧
    c2 = gridPt qv u v d (m1 + 1) m2 ∧ c3 = gridPt qv u v d (m1 + 1) (m2 + 1))

/-- A quad whose four indices are valid in `bcs` and whose block
coordinates walk a level-`d` grid cell. -/
def GoodQuad (qv u v : V3) (d : ℕ) (bcs : List V3) (qd : Quad) : Prop :=
  qd.1 < bcs.length ∧ qd.2.1 < bcs.length ∧ qd.2.2.1 < bcs.length ∧
  qd.2.2.2 < bcs.length ∧
  ∃ m1 m2, m1 < 2 ^ d ∧ m2 < 2 ^ d ∧
    IsCellAt qv u v d m1 m2 (bcs.getD qd.1 default) (bcs.getD qd.2.1 default)
      (bcs.getD qd.2.2.1 default) (bcs.getD qd.2.2.2 default)

/-- The five block coordinates one quad subdivision pushes, in source
order: diagonal centre first, then the four edge midpoints. -/
def pushList (c0 c1 c2 c3 : V3) : List V3 :=
  [V3.mid (V3.mid c0 c1) (V3.mid c2 c3), V3.mid c0 c1, V3.mid c1 c2,
    V3.mid c2 c3, V3.mid c3 c0]

/-- `x` is a grid point of level `d` (indices within range). -/
def InGrid (qv u v : V3) (d : ℕ) (x : V3) : Prop :=
  ∃ a b, a ≤ 2 ^ d ∧ b ≤ 2 ^ d ∧ x = gridPt qv u v d a b

/-- The block coordinates of quad `qd` walk cell `(m1, m2)`. -/
def QuadIsCell (qv u v : V3) (d m1 m2 : ℕ) (bcs : List V3) (qd : Quad) : Prop :=
  IsCellAt qv u v d m1 m2 (bcs.getD qd.1 default) (bcs.getD qd.2.1 default)
    (bcs.getD qd.2.2.1 default) (bcs.getD qd.2.2.2 default)

/-- Planet used as C10 witness input: radius 2 (atmosphere 3), placed one
unit from the origin. -/
def pNear : Planet := { Planet.new 2 none (fun _ => 0) with position := (1, 0, 0) }

/-- The level-`d` uniform-subdivision invariant of a patch built over the
root cell `(qv, u, v)`: parallel sequences stay in step, every block
coordinate is a level-`d` grid point, every quad walks a level-`d` cell,
every level-`d` grid point is materialised, and every level-`d` cell is
walked by some quad. -/
def SubInv (qv u v : V3) (d : ℕ) (p : Patch) : Prop :=
  p.vertices.length = p.blockCoords.length ∧
  (∀ x ∈ p.blockCoords, InGrid qv u v d x) ∧
  (∀ qd ∈ p.quads, GoodQuad qv u v d p.blockCoords qd) ∧
  (∀ a b, a ≤ 2 ^ d → b ≤ 2 ^ d → gridPt qv u v d a b ∈ p.blockCoords) ∧
  (∀ m1 m2, m1 < 2 ^ d → m2 < 2 ^ d →
    ∃ qd ∈ p.quads, QuadIsCell qv u v d m1 m2 p.blockCoords qd)

/-- Root patch used as the C4 witness input: the unit square cell in the
`z = 0` plane, one quad, four vertices. -/
def unitPatch : Patch :=
  { vertices := [vA, vA, vA, vA]
    blockCoords := [((0 : ℝ), (0 : ℝ), (0 : ℝ)), ((1 : ℝ), (0 : ℝ), (0 : ℝ)),
      ((1 : ℝ), (1 : ℝ), (0 : ℝ)), ((0 : ℝ), (1 : ℝ), (0 : ℝ))]
    texCoords := []
    quads := [(0, 1, 2, 3)] }

namespace V3

theorem len_nonneg (a : V3) : 0 ≤ len a := Real.sqrt_nonneg _

theorem len_eq_zero_iff (a : V3) : len a = 0 ↔ a = 0 := by
  unfold len
  rw [Real.sqrt_eq_zero (by positivity)]
  constructor
  · intro h
    have h1 : a.1 = 0 ∧ a.2.1 = 0 ∧ a.2.2 = 0 := by
      constructor
      · nlinarith [sq_nonneg a.1, sq_nonneg a.2.1, sq_nonneg a.2.2]
      constructor
      · nlinarith [sq_nonneg a.1, sq_nonneg a.2.1, sq_nonneg a.2.2]
      · nlinarith [sq_nonneg a.1, sq_nonneg a.2.1, sq_nonneg a.2.2]
    obtain ⟨h1, h2, h3⟩ := h1
    exact Prod.ext h1 (Prod.ext h2 h3)
  · rintro rfl
    norm_num [Prod.fst_zero, Prod.snd_zero]

theorem len_smul (c : ℝ) (a : V3) : len (c • a) = |c| * len a := by
  unfold len
  have : (c • a).1 = c * a.1 ∧ (c • a).2.1 = c * a.2.1 ∧ (c • a).2.2 = c * a.2.2 := by
    refine ⟨rfl, rfl, rfl⟩
  obtain ⟨h1, h2, h3⟩ := this
  rw [h1, h2, h3]
  have : (c * a.1) ^ 2 + (c * a.2.1) ^ 2 + (c * a.2.2) ^ 2
      = c ^ 2 * (a.1 ^ 2 + a.2.1 ^ 2 + a.2.2 ^ 2) := by ring
  rw [this, Real.sqrt_mul (sq_nonneg c), Real.sqrt_sq_eq_abs]

end V3

theorem scanLods_le_max (lods : List Lod) (d : ℝ) :
    scanLods lods d ≤ lods.foldr (fun l acc => max l.subdivisions acc) 0 := by
  induction lods with
  | nil => simp [scanLods]
  | cons lod rest ih =>
    by_cases h : d < lod.distance
    · simp only [scanLods, if_pos h, List.foldr]
      exact le_max_left _ _
    · simp only [scanLods, if_neg h, List.foldr]
      exact ih.trans (le_max_right _ _)

theorem scanLods_eq_zero_iff (lods : List Lod) (d : ℝ)
    (hnz : ∀ l ∈ lods, l.subdivisions ≠ 0) :
    scanLods lods d = 0 ↔ ∀ l ∈ lods, ¬ d < l.distance := by
  induction lods with
  | nil => simp [scanLods]
  | cons lod rest ih =>
    by_cases h : d < lod.distance
    · simp only [scanLods, if_pos h]
      constructor
      · intro h0
        exact absurd h0 (hnz lod (List.mem_cons_self _ _))
      · intro hall
        exact absurd h (hall lod (List.mem_cons_self _ _))
    · simp only [scanLods, if_neg h]
      rw [ih (fun l hl => hnz l (List.mem_cons_of_mem _ hl))]
      constructor
      · intro hall l hl
        rcases List.mem_cons.mp hl with rfl | hl
        · exact h
        · exact hall l hl
      · intro hall l hl
        exact hall l (List.mem_cons_of_mem _ hl)

namespace NoiseParams

theorem sample3Dgo_fst (p : NoiseParams) (n : ℕ) :
    ∀ (coord : V3) (amplitude result : ℝ),
      (p.sample3Dgo n coord amplitude result).1 =
        result + ∑ i ∈ Finset.range n,
          p.octaveVal (p.octaveScale ^ i • coord) * (amplitude * p.octaveAmplitude ^ i) := by
  induction n with
  | zero => intro coord amplitude result; simp [sample3Dgo]
  | succ n ih =>
    intro coord amplitude result
    rw [sample3Dgo, ih, Finset.sum_range_succ']
    have h : ∀ i ∈ Finset.range n,
        p.octaveVal (p.octaveScale ^ i • p.octaveScale • coord) *
            (amplitude * p.octaveAmplitude * p.octaveAmplitude ^ i) =
          p.octaveVal (p.octaveScale ^ (i + 1) • coord) *
            (amplitude * p.octaveAmplitude ^ (i + 1)) := by
      intro i _
      rw [smul_smul, ← pow_succ]
      ring
    rw [Finset.sum_congr rfl h]
    simp only [pow_zero, one_smul]
    ring

theorem sample3Dgo_snd (p : NoiseParams) (n : ℕ) :
    ∀ (coord : V3) (amplitude result : ℝ),
      (p.sample3Dgo n coord amplitude result).2 = p.octaveScale ^ n • coord := by
  induction n with
  | zero => intro coord amplitude result; simp [sample3Dgo]
  | succ n ih =>
    intro coord amplitude result
    rw [sample3Dgo, ih, smul_smul, ← pow_succ]

end NoiseParams

/-- C7: for every coordinate and every non-negative integer `detail`,
`sample3D` returns `offset` plus the sum over octaves `i < detail` of the
noise evaluated at `coordinate × frequency × octaveScale ^ i` (remapped
from [-1,1] to [0,1] when `allowNegative` is false) times
`amplitude × octaveAmplitude ^ i`; in particular `sample3D (coord, 0)`
returns exactly `offset` for every coordinate. -/
theorem sample3D_octave_sum (p : NoiseParams) (coord : V3) (n : ℕ) :
    (p.sample3D coord (n : ℝ)).1 =
      p.offset + ∑ i ∈ Finset.range n,
        p.octaveVal (p.octaveScale ^ i • V3.hadamard coord p.frequency) *
          (p.amplitude * p.octaveAmplitude ^ i) ∧
    ∀ c : V3, (p.sample3D c (0 : ℝ)).1 = p.offset := by
  constructor
  · rw [NoiseParams.sample3D]
    rw [show Int.toNat ⌈(n : ℝ)⌉ = n by rw [Int.ceil_natCast]; exact Int.toNat_natCast n]
    exact p.sample3Dgo_fst n _ _ _
  · intro c
    rw [NoiseParams.sample3D]
    norm_num [NoiseParams.sample3Dgo]

/-- C8 counterexample: `sample3D` multiplies the caller's coordinate in
place by `frequency` (`coord.multiplyInPlace(this.frequency)`) before the
octave loop, so the caller's coordinate object is mutated even at
`detail = 0`: with frequency `(2,2,2)` the coordinate `(1,1,1)` ends up as
`(2,2,2)`, contradicting the claim that only a local copy is
transformed. -/
theorem sample3D_mutates_coord_counterexample :
    (mutParams.sample3D (1, 1, 1) 0).2 ≠ ((1 : ℝ), (1 : ℝ), (1 : ℝ)) := by
  have : (mutParams.sample3D (1, 1, 1) 0).2 = ((2 : ℝ), (2 : ℝ), (2 : ℝ)) := by
    norm_num [NoiseParams.sample3D, NoiseParams.sample3Dgo, V3.hadamard, mutParams]
  rw [this]
  norm_num [Prod.ext_iff]

/-- C8 amended: `sample3D` leaves every field of the `NoiseParams`
instance unchanged (the embedding is pure in `p`), but it does mutate the
caller's coordinate object: after the call the coordinate equals
`(coord × frequency) × octaveScale ^ k`, where `k = ⌈detail⌉⁺` is the
number of octave iterations executed. -/
theorem sample3D_coord_final (p : NoiseParams) (coord : V3) (detail : ℝ) :
    (p.sample3D coord detail).2 =
      p.octaveScale ^ (Int.toNat ⌈detail⌉) • V3.hadamard coord p.frequency :=
  p.sample3Dgo_snd _ _ _ _

/-- C3: for both cut operations, the new depth is
`max(a.depth, b.depth) + 1` except under an explicit `edge = false`
override, where it is `max(a.depth, b.depth)`; with no edge override the
edge flag defaults to `a.edge && b.edge`; with no centerPiece override
the centerPiece flag is `false`; and `cutSphere`'s position is
`normalize(a.position + b.position)` scaled by the radius. -/
theorem cut_depth_edge_center_position (a b : Vertex) (radius : ℝ)
    (e c : Option Bool) (pL pR : Option ℕ) :
    ((a.cutSphere b radius e c pL pR).depth =
        if e = some false then max a.depth b.depth else max a.depth b.depth + 1) ∧
    ((a.cutLinear b e c pL pR).depth =
        if e = some false then max a.depth b.depth else max a.depth b.depth + 1) ∧
    (e = none → (a.cutSphere b radius e c pL pR).edge = (a.edge && b.edge) ∧
      (a.cutLinear b e c pL pR).edge = (a.edge && b.edge)) ∧
    (c = none → (a.cutSphere b radius e c pL pR).centerPiece = false ∧
      (a.cutLinear b e c pL pR).centerPiece = false) ∧
    (a.cutSphere b radius e c pL pR).position =
      radius • V3.normalize (a.position + b.position) := by
  refine ⟨?_, ?_, ?_, ?_, rfl⟩
  · by_cases he : e = some false <;> simp [Vertex.cutSphere, he]
  · by_cases he : e = some false <;> simp [Vertex.cutLinear, he]
  · rintro rfl; exact ⟨rfl, rfl⟩
  · rintro rfl; exact ⟨rfl, rfl⟩

/-- Witness for C3 at concrete vertices with no overrides: the cut has
depth `0 + 1 = 1`, edge flag `true && true`, and centerPiece `false`. -/
theorem cut_ops_witness :
    (vA.cutSphere vB 1 none none none none).depth = 1 ∧
    (vA.cutSphere vB 1 none none none none).edge = (vA.edge && vB.edge) ∧
    (vA.cutLinear vB none none none none).centerPiece = false := by
  obtain ⟨h1, _, h3, h4, _⟩ := cut_depth_edge_center_position vA vB 1 none none none none
  exact ⟨by simpa using h1, (h3 rfl).1, (h4 rfl).2⟩

theorem tick_eq_of_lastPosition_some (m : PlanetManager) (lp : V3)
    (h : m.lastPosition = some lp) :
    m.tick = if V3.distSq m.target lp < m.epsilon * m.epsilon then (m, [])
      else ({ m with lastPosition := some m.target }, m.tickActions) := by
  unfold PlanetManager.tick
  rw [h]

theorem distSq_eq_dist3_mul (a b : V3) : V3.distSq a b = V3.dist3 a b * V3.dist3 a b := by
  unfold V3.distSq V3.dist3 V3.len
  rw [Real.mul_self_sqrt (by positivity)]
  simp [Prod.fst_sub, Prod.snd_sub]

theorem distSq_lt_iff (a b : V3) (ε : ℝ) (hε : 0 ≤ ε) :
    V3.distSq a b < ε * ε ↔ V3.dist3 a b < ε := by
  rw [distSq_eq_dist3_mul]
  exact (mul_self_lt_mul_self_iff (V3.len_nonneg _) hε).symm

theorem processPlanet_tag (m : PlanetManager) (j : ℕ) (a : RegenAction)
    (h : processPlanet m j = some a) :
    a = .surface j ∨ ∃ s, a = .mesh j s := by
  unfold processPlanet at h
  by_cases hd : V3.dist3 m.target (m.planets.getD j default).position <
      (m.planets.getD j default).atmosphere
  · rw [if_pos hd] at h
    exact Or.inl (Option.some_injective _ h).symm
  · rw [if_neg hd] at h
    rcases hs : scanLods m.lods (V3.dist3 m.target (m.planets.getD j default).position) with
      _ | s
    · rw [hs] at h; exact absurd h (by simp)
    · rw [hs] at h
      exact Or.inr ⟨s + 1, (Option.some_injective _ h).symm⟩

theorem mem_tickActions_iff (m : PlanetManager) (a : RegenAction) :
    a ∈ m.tickActions ↔ ∃ j < m.planets.length, processPlanet m j = some a := by
  unfold PlanetManager.tickActions
  rw [List.mem_filterMap]
  constructor
  · rintro ⟨j, hj, hja⟩; exact ⟨j, List.mem_range.mp hj, hja⟩
  · rintro ⟨j, hj, hja⟩; exact ⟨j, List.mem_range.mpr hj, hja⟩

/-- C9: with a stored reference position, a tick with viewpoint movement
below epsilon returns immediately, changing no manager or planet state
and regenerating nothing; with movement at least epsilon it stores the
viewpoint as the new reference and processes every planet: planet `i`
gets a surface rebuild exactly when it is inside its atmosphere, and a
uniform rebuild at count `s ≠ 0` exactly when it is outside and the far
tier scan yields `s`. -/
theorem tick_epsilon_throttle (m : PlanetManager) (lp : V3)
    (hlp : m.lastPosition = some lp) (hε : 0 ≤ m.epsilon) :
    (V3.dist3 m.target lp < m.epsilon → m.tick = (m, [])) ∧
    (m.epsilon ≤ V3.dist3 m.target lp →
      m.tick.1 = { m with lastPosition := some m.target } ∧
      ∀ i < m.planets.length,
        (RegenAction.surface i ∈ m.tick.2 ↔
          V3.dist3 m.target (m.planets.getD i default).position <
            (m.planets.getD i default).atmosphere) ∧
        ∀ s, RegenAction.mesh i s ∈ m.tick.2 ↔
          ¬ V3.dist3 m.target (m.planets.getD i default).position <
              (m.planets.getD i default).atmosphere ∧
            scanLods m.lods (V3.dist3 m.target (m.planets.getD i default).position) = s ∧
            s ≠ 0) := by
  constructor
  · intro hmove
    rw [tick_eq_of_lastPosition_some m lp hlp,
      if_pos ((distSq_lt_iff _ _ _ hε).mpr hmove)]
  · intro hmove
    have hcond : ¬ V3.distSq m.target lp < m.epsilon * m.epsilon := by
      rw [distSq_lt_iff _ _ _ hε]; exact not_lt.mpr hmove
    have htick : m.tick = ({ m with lastPosition := some m.target }, m.tickActions) := by
      rw [tick_eq_of_lastPosition_some m lp hlp, if_neg hcond]
    refine ⟨by rw [htick], ?_⟩
    intro i hi
    have hmem : ∀ a : RegenAction,
        a ∈ m.tick.2 ↔ ∃ j < m.planets.length, processPlanet m j = some a := by
      intro a; rw [htick]; exact mem_tickActions_iff m a
    constructor
    · rw [hmem]
      constructor
      · rintro ⟨j, hj, hja⟩
        rcases processPlanet_tag m j _ hja with htag | ⟨s, htag⟩
        · obtain rfl : j = i := by cases htag; rfl
          unfold processPlanet at hja
          by_cases hd : V3.dist3 m.target (m.planets.getD j default).position <
              (m.planets.getD j default).atmosphere
          · exact hd
          · rw [if_neg hd] at hja
            rcases hs : scanLods m.lods
                (V3.dist3 m.target (m.planets.getD j default).position) with _ | s
            · rw [hs] at hja; exact absurd hja (by simp)
            · rw [hs] at hja
              exact absurd (Option.some_injective _ hja) (by simp)
        · cases htag
      · intro hd
        refine ⟨i, hi, ?_⟩
        unfold processPlanet
        rw [if_pos hd]
    · intro s
      rw [hmem]
      constructor
      · rintro ⟨j, hj, hja⟩
        have hji : j = i := by
          rcases processPlanet_tag m j _ hja with htag | ⟨s', htag⟩
          · cases htag
          · cases htag; rfl
        subst hji
        unfold processPlanet at hja
        by_cases hd : V3.dist3 m.target (m.planets.getD j default).position <
            (m.planets.getD j default).atmosphere
        · rw [if_pos hd] at hja
          exact absurd (Option.some_injective _ hja) (by simp)
        · rw [if_neg hd] at hja
          rcases hs : scanLods m.lods
              (V3.dist3 m.target (m.planets.getD j default).position) with _ | s'
          · rw [hs] at hja; exact absurd hja (by simp)
          · rw [hs] at hja
            have heq := Option.some_injective _ hja
            injection heq with h1 h2
            subst h2
            exact ⟨hd, rfl, Nat.succ_ne_zero s'⟩
      · rintro ⟨hd, hscan, hs0⟩
        refine ⟨i, hi, ?_⟩
        unfold processPlanet
        rw [if_neg hd, hscan]
        rcases s with _ | s
        · exact absurd rfl hs0
        · rfl

theorem dist3_self_lt_one : V3.dist3 ((0 : ℝ), (0 : ℝ), (0 : ℝ)) ((0 : ℝ), (0 : ℝ), (0 : ℝ)) < 1 := by
  unfold V3.dist3 V3.len
  simp [Prod.fst_sub, Prod.snd_sub]

theorem one_le_dist3_five : (1 : ℝ) ≤ V3.dist3 ((0 : ℝ), (0 : ℝ), (0 : ℝ)) ((5 : ℝ), (0 : ℝ), (0 : ℝ)) := by
  unfold V3.dist3 V3.len
  have h1 : (((0 : ℝ), (0 : ℝ), (0 : ℝ)) - ((5 : ℝ), (0 : ℝ), (0 : ℝ))).1 = -5 := by
    rw [Prod.fst_sub]; norm_num
  have h2 : (((0 : ℝ), (0 : ℝ), (0 : ℝ)) - ((5 : ℝ), (0 : ℝ), (0 : ℝ))).2.1 = 0 := by
    rw [Prod.snd_sub, Prod.fst_sub]; norm_num
  have h3 : (((0 : ℝ), (0 : ℝ), (0 : ℝ)) - ((5 : ℝ), (0 : ℝ), (0 : ℝ))).2.2 = 0 := by
    rw [Prod.snd_sub, Prod.snd_sub]; norm_num
  rw [h1, h2, h3]
  rw [show (-5 : ℝ) ^ 2 + (0 : ℝ) ^ 2 + (0 : ℝ) ^ 2 = 5 ^ 2 by norm_num]
  rw [Real.sqrt_sq (by norm_num)]
  norm_num

/-- Witness for C9: a still viewpoint leaves the just-constructed manager
untouched; a viewpoint 5 units from the reference stores itself as the
new reference. -/
theorem tick_epsilon_throttle_witness :
    mStill.tick = (mStill, []) ∧ mMoved.tick.1.lastPosition = some mMoved.target := by
  constructor
  · exact (tick_epsilon_throttle mStill (0, 0, 0) rfl
      (by norm_num [mStill, PlanetManager.new])).1 dist3_self_lt_one
  · have h := (tick_epsilon_throttle mMoved (5, 0, 0) rfl
      (by norm_num [mMoved, PlanetManager.new])).2 one_le_dist3_five
    rw [h.1]

/-- C10: on the very first tick of a freshly constructed manager no
reference position exists, so the epsilon throttle cannot apply: every
managed planet that is inside its atmosphere or within some default far
tier's distance threshold is regenerated, regardless of viewpoint
movement. -/
theorem first_tick_regenerates (target : V3) (ps : List Planet) (i : ℕ)
    (hi : i < ps.length)
    (hin : V3.dist3 target (ps.getD i default).position < (ps.getD i default).atmosphere ∨
      ∃ l ∈ ({ PlanetManager.new target with planets := ps } : PlanetManager).lods,
        V3.dist3 target (ps.getD i default).position < l.distance) :
    ∃ a ∈ ({ PlanetManager.new target with planets := ps } : PlanetManager).tick.2,
      a = RegenAction.surface i ∨ ∃ s, a = RegenAction.mesh i s := by
  set m : PlanetManager := { PlanetManager.new target with planets := ps } with hm
  have htick : m.tick.2 = m.tickActions := rfl
  have hexists : ∃ a, processPlanet m i = some a := by
    unfold processPlanet
    by_cases hd : V3.dist3 m.target (m.planets.getD i default).position <
        (m.planets.getD i default).atmosphere
    · exact ⟨_, by rw [if_pos hd]⟩
    · have hdist : V3.dist3 m.target (m.planets.getD i default).position =
          V3.dist3 target (ps.getD i default).position := rfl
      have hmatch : ∃ l ∈ m.lods,
          V3.dist3 m.target (m.planets.getD i default).position < l.distance := by
        rcases hin with hin | hin
        · exact absurd (by rw [hdist]; exact hin) hd
        · rcases hin with ⟨l, hl, hld⟩
          exact ⟨l, hl, by rw [hdist]; exact hld⟩
      have hnz : ∀ l ∈ m.lods, l.subdivisions ≠ 0 := by
        intro l hl
        have hlods : m.lods = [⟨200, 4⟩, ⟨1000, 3⟩, ⟨2000, 2⟩, ⟨5000, 1⟩] := rfl
        rw [hlods] at hl
        simp only [List.mem_cons, List.not_mem_nil, or_false] at hl
        rcases hl with rfl | rfl | rfl | rfl <;> norm_num
      have hscan : scanLods m.lods
          (V3.dist3 m.target (m.planets.getD i default).position) ≠ 0 := by
        intro h0
        rcases hmatch with ⟨l, hl, hld⟩
        exact (scanLods_eq_zero_iff m.lods _ hnz).mp h0 l hl hld
      rcases hs : scanLods m.lods
          (V3.dist3 m.target (m.planets.getD i default).position) with _ | s
      · exact absurd hs hscan
      · rw [if_neg hd, hs]
        exact ⟨_, rfl⟩
  rcases hexists with ⟨a, ha⟩
  refine ⟨a, ?_, processPlanet_tag m i a ha⟩
  rw [htick, mem_tickActions_iff]
  exact ⟨i, by simpa using hi, ha⟩

theorem getD_set_of_ne {α : Type} [Inhabited α] (l : List α) (i j : ℕ) (a : α)
    (h : i ≠ j) : (l.set i a).getD j default = l.getD j default := by
  simp [List.getD_eq_getElem?_getD, List.getElem?_set_ne h]

theorem getD_set_self {α : Type} [Inhabited α] (l : List α) (i : ℕ) (a : α)
    (h : i < l.length) : (l.set i a).getD i default = a := by
  simp [List.getD_eq_getElem?_getD, List.getElem?_set_self, h]

theorem displaceStep_vertices_length (pl : Planet) (t? : Option V3)
    (l? : Option (List Lod)) (st : Patch) (i : ℕ) :
    (displaceStep pl t? l? st i).vertices.length = st.vertices.length := by
  unfold displaceStep
  dsimp only []
  repeat' split
  all_goals simp [List.length_set]

theorem displaceStep_getD_of_ne (pl : Planet) (t? : Option V3)
    (l? : Option (List Lod)) (st : Patch) (i j : ℕ) (hij : j ≠ i) :
    (displaceStep pl t? l? st j).vertices.getD i default = st.vertices.getD i default := by
  unfold displaceStep
  dsimp only []
  repeat' split
  all_goals simp [List.getD_eq_getElem?_getD, List.getElem?_set_ne hij]

theorem displaceUpTo_succ (pl : Planet) (t? : Option V3) (l? : Option (List Lod))
    (st : Patch) (k : ℕ) :
    displaceUpTo pl t? l? st (k + 1) =
      displaceStep pl t? l? (displaceUpTo pl t? l? st k) k := by
  unfold displaceUpTo
  rw [List.range_succ, List.foldl_append]
  rfl

theorem displaceUpTo_vertices_length (pl : Planet) (t? : Option V3)
    (l? : Option (List Lod)) (st : Patch) (k : ℕ) :
    (displaceUpTo pl t? l? st k).vertices.length = st.vertices.length := by
  induction k with
  | zero => rfl
  | succ k ih => rw [displaceUpTo_succ, displaceStep_vertices_length, ih]

theorem displaceUpTo_getD_of_le (pl : Planet) (t? : Option V3)
    (l? : Option (List Lod)) (st : Patch) (k i : ℕ) (h : k ≤ i) :
    (displaceUpTo pl t? l? st k).vertices.getD i default = st.vertices.getD i default := by
  induction k with
  | zero => rfl
  | succ k ih =>
    rw [displaceUpTo_succ, displaceStep_getD_of_ne _ _ _ _ _ _ (by omega),
      ih (by omega)]

theorem foldl_displaceStep_getD (pl : Planet) (t? : Option V3) (l? : Option (List Lod))
    (i : ℕ) (js : List ℕ) (hjs : ∀ j ∈ js, j ≠ i) :
    ∀ s : Patch, (js.foldl (displaceStep pl t? l?) s).vertices.getD i default =
      s.vertices.getD i default := by
  induction js with
  | nil => intro s; rfl
  | cons j js ih =>
    intro s
    rw [List.foldl_cons, ih (fun j' hj' => hjs j' (List.mem_cons_of_mem _ hj')),
      displaceStep_getD_of_ne _ _ _ _ _ _ (hjs j (List.mem_cons_self _ _))]

/-- The final position of vertex `i` is determined by the single loop
iteration that processes it, run on the state left behind by the
iterations for vertices `0, …, i-1`; later iterations never write
index `i`. -/
theorem displace_getD_eq_step (pl : Planet) (t? : Option V3) (l? : Option (List Lod))
    (st : Patch) (i : ℕ) (hi : i < st.vertices.length) :
    (displace pl t? l? st).vertices.getD i default =
      (displaceStep pl t? l? (displaceUpTo pl t? l? st i) i).vertices.getD i default := by
  unfold displace
  obtain ⟨b, hb⟩ : ∃ b, st.vertices.length = (i + 1) + b :=
    ⟨st.vertices.length - (i + 1), by omega⟩
  rw [hb]
  show (displaceUpTo pl t? l? st ((i + 1) + b)).vertices.getD i default = _
  unfold displaceUpTo
  rw [List.range_add, List.foldl_append]
  rw [foldl_displaceStep_getD pl t? l? i _ (by
    intro j hj
    rcases List.mem_map.mp hj with ⟨x, _, rfl⟩
    omega)]
  rw [List.range_succ, List.foldl_append]
  rfl

theorem displaceStep_blockCoords_getD_of_ne (pl : Planet) (t? : Option V3)
    (l? : Option (List Lod)) (st : Patch) (i j : ℕ) (hij : j ≠ i) :
    (displaceStep pl t? l? st j).blockCoords.getD i default = st.blockCoords.getD i default := by
  unfold displaceStep
  dsimp only []
  repeat' split
  all_goals simp [List.getD_eq_getElem?_getD, List.getElem?_set_ne hij]

theorem displaceUpTo_blockCoords_getD_of_le (pl : Planet) (t? : Option V3)
    (l? : Option (List Lod)) (st : Patch) (k i : ℕ) (h : k ≤ i) :
    (displaceUpTo pl t? l? st k).blockCoords.getD i default = st.blockCoords.getD i default := by
  induction k with
  | zero => rfl
  | succ k ih =>
    rw [displaceUpTo_succ, displaceStep_blockCoords_getD_of_ne _ _ _ _ _ _ (by omega),
      ih (by omega)]

/-- In uniform mode (`target` or `lods` absent) the loop body always
applies the sampled noise height. -/
theorem displaceStep_uniform_eval (pl : Planet) (t? : Option V3) (l? : Option (List Lod))
    (st : Patch) (i : ℕ) (hul : t? = none ∨ l? = none) (hi : i < st.vertices.length) :
    (displaceStep pl t? l? st i).vertices.getD i default =
      moveVertex (st.vertices.getD i default)
        ((pl.heightParams.sample3D (st.blockCoords.getD i default)
          (1 + ((st.vertices.getD i default).depth : ℝ) / 2)).1) := by
  rcases hul with rfl | rfl
  · unfold displaceStep
    dsimp only []
    exact getD_set_self _ _ _ hi
  · rcases t? with _ | t
    · unfold displaceStep
      dsimp only []
      exact getD_set_self _ _ _ hi
    · unfold displaceStep
      dsimp only []
      exact getD_set_self _ _ _ hi

/-- In adaptive mode, a centerpoint vertex, a tier scan of `0` (no match
or matched depth 0, both falsy), or a depth not exceeding the scanned
tier depth all take the noise branch. -/
theorem displaceStep_adaptive_noise_eval (pl : Planet) (target : V3) (lods : List Lod)
    (st : Patch) (i : ℕ) (hi : i < st.vertices.length)
    (hcase : (st.vertices.getD i default).centerPiece = true ∨
      scanLods lods (V3.dist3 target
        ((st.vertices.getD i default).position + pl.position)) = 0 ∨
      (st.vertices.getD i default).depth ≤
        scanLods lods (V3.dist3 target
          ((st.vertices.getD i default).position + pl.position))) :
    (displaceStep pl (some target) (some lods) st i).vertices.getD i default =
      moveVertex (st.vertices.getD i default)
        ((pl.heightParams.sample3D (st.blockCoords.getD i default)
          (1 + ((st.vertices.getD i default).depth : ℝ) / 2)).1) := by
  unfold displaceStep
  dsimp only []
  by_cases hcp : (st.vertices.getD i default).centerPiece = true
  · rw [if_pos hcp]
    exact getD_set_self _ _ _ hi
  · rw [if_neg hcp]
    rcases hcase with hc | hzero | hle
    · exact absurd hc hcp
    · rw [if_neg (fun hand => hand.1 hzero)]
      exact getD_set_self _ _ _ hi
    · rw [if_neg (fun hand => absurd hand.2 (not_lt.mpr hle))]
      exact getD_set_self _ _ _ hi

/-- In adaptive mode, an eligible non-centerpoint vertex with both
parents present and of nonzero radial length gets the parent-average
height — unless that blend is exactly `0` (falsy `if (!height)`), in
which case the noise branch runs after all. -/
theorem displaceStep_blend_eval (pl : Planet) (target : V3) (lods : List Lod)
    (st : Patch) (i jL jR : ℕ) (hi : i < st.vertices.length)
    (hcp : (st.vertices.getD i default).centerPiece = false)
    (hpL : (st.vertices.getD i default).parentL = some jL)
    (hpR : (st.vertices.getD i default).parentR = some jR)
    (hsubs : scanLods lods (V3.dist3 target
      ((st.vertices.getD i default).position + pl.position)) ≠ 0)
    (hdepth : scanLods lods (V3.dist3 target
      ((st.vertices.getD i default).position + pl.position)) <
      (st.vertices.getD i default).depth)
    (hl : V3.len (st.vertices.getD jL default).position ≠ 0)
    (hr : V3.len (st.vertices.getD jR default).position ≠ 0) :
    (displaceStep pl (some target) (some lods) st i).vertices.getD i default =
      if (V3.len (st.vertices.getD jL default).position +
            V3.len (st.vertices.getD jR default).position) * 0.5 - pl.radius = 0
      then moveVertex (st.vertices.getD i default)
        ((pl.heightParams.sample3D (st.blockCoords.getD i default)
          (1 + ((st.vertices.getD i default).depth : ℝ) / 2)).1)
      else moveVertex (st.vertices.getD i default)
        ((V3.len (st.vertices.getD jL default).position +
          V3.len (st.vertices.getD jR default).position) * 0.5 - pl.radius) := by
  unfold displaceStep
  dsimp only []
  rw [if_neg (by rw [hcp]; exact Bool.false_ne_true)]
  rw [if_pos ⟨hsubs, hdepth⟩, hpL, hpR]
  dsimp only []
  rw [if_neg (by push_neg; exact ⟨hl, hr⟩)]
  split_ifs with hb
  · exact getD_set_self _ _ _ hi
  · exact getD_set_self _ _ _ hi

/-- In adaptive mode, an eligible non-centerpoint vertex with a missing
parent lookup is skipped entirely: the loop body `continue`s, leaving the
whole patch state unchanged. -/
theorem displaceStep_skip_eval (pl : Planet) (target : V3) (lods : List Lod)
    (st : Patch) (i : ℕ)
    (hcp : (st.vertices.getD i default).centerPiece = false)
    (hsubs : scanLods lods (V3.dist3 target
      ((st.vertices.getD i default).position + pl.position)) ≠ 0)
    (hdepth : scanLods lods (V3.dist3 target
      ((st.vertices.getD i default).position + pl.position)) <
      (st.vertices.getD i default).depth)
    (hmiss : (st.vertices.getD i default).parentL = none ∨
      (st.vertices.getD i default).parentR = none) :
    displaceStep pl (some target) (some lods) st i = st := by
  unfold displaceStep
  dsimp only []
  rw [if_neg (by rw [hcp]; exact Bool.false_ne_true)]
  rw [if_pos ⟨hsubs, hdepth⟩]
  rcases hmiss with hm | hm
  · rw [hm]
  · rcases hL : (st.vertices.getD i default).parentL with _ | jL
    · rfl
    · rw [hm]

/-- C1 (amended): for a vertex processed by `displace` in adaptive mode —
non-centerpoint, tier scan truthy, depth strictly exceeding the scanned
tier depth, both parents present with nonzero radial lengths and a
nonzero blended value — the applied height is
`(|parentL.position| + |parentR.position|) / 2 − radius` computed from
the parents' positions *current when the vertex is processed*: parents
sit at earlier indices and have already been displaced by this same pass
(`parentLen`).  In the non-blend cases (centerpoint, tier scan falsy, or
depth not exceeding; and always in uniform mode) the applied height is
the height noise sampled at the vertex's pre-displacement block
coordinate with `detail = 1 + depth / 2`. -/
theorem displace_vertex_height_rule (pl : Planet) (target : V3) (lods : List Lod)
    (st : Patch) (i : ℕ) (v : Vertex)
    (hi : i < st.vertices.length) (hv : st.vertices.getD i default = v) :
    (∀ jL jR, v.centerPiece = false →
      v.parentL = some jL → v.parentR = some jR →
      scanLods lods (V3.dist3 target (v.position + pl.position)) ≠ 0 →
      scanLods lods (V3.dist3 target (v.position + pl.position)) < v.depth →
      parentLen pl (some target) (some lods) st i jL ≠ 0 →
      parentLen pl (some target) (some lods) st i jR ≠ 0 →
      (parentLen pl (some target) (some lods) st i jL +
        parentLen pl (some target) (some lods) st i jR) * 0.5 - pl.radius ≠ 0 →
      (displace pl (some target) (some lods) st).vertices.getD i default =
        moveVertex v ((parentLen pl (some target) (some lods) st i jL +
          parentLen pl (some target) (some lods) st i jR) * 0.5 - pl.radius)) ∧
    ((v.centerPiece = true ∨
        scanLods lods (V3.dist3 target (v.position + pl.position)) = 0 ∨
        v.depth ≤ scanLods lods (V3.dist3 target (v.position + pl.position))) →
      (displace pl (some target) (some lods) st).vertices.getD i default =
        moveVertex v (pl.heightAt (st.blockCoords.getD i default) (1 + (v.depth : ℝ) / 2))) ∧
    ((displace pl none none st).vertices.getD i default =
      moveVertex v (pl.heightAt (st.blockCoords.getD i default) (1 + (v.depth : ℝ) / 2))) := by
  refine ⟨?_, ?_, ?_⟩
  · intro jL jR hcp hpL hpR hsubs hdepth hl hr hb
    rw [displace_getD_eq_step pl _ _ st i hi]
    have hvi : (displaceUpTo pl (some target) (some lods) st i).vertices.getD i default = v := by
      rw [displaceUpTo_getD_of_le _ _ _ _ _ _ (le_refl i)]; exact hv
    have hilen : i < (displaceUpTo pl (some target) (some lods) st i).vertices.length := by
      rw [displaceUpTo_vertices_length]; exact hi
    rw [displaceStep_blend_eval pl target lods _ i jL jR hilen
      (by rw [hvi]; exact hcp) (by rw [hvi]; exact hpL) (by rw [hvi]; exact hpR)
      (by rw [hvi]; exact hsubs) (by rw [hvi]; exact hdepth) hl hr]
    rw [show V3.len ((displaceUpTo pl (some target) (some lods) st i).vertices.getD
        jL default).position = parentLen pl (some target) (some lods) st i jL from rfl]
    rw [show V3.len ((displaceUpTo pl (some target) (some lods) st i).vertices.getD
        jR default).position = parentLen pl (some target) (some lods) st i jR from rfl]
    rw [if_neg hb, hvi]
  · intro hcase
    rw [displace_getD_eq_step pl _ _ st i hi]
    have hvi : (displaceUpTo pl (some target) (some lods) st i).vertices.getD i default = v := by
      rw [displaceUpTo_getD_of_le _ _ _ _ _ _ (le_refl i)]; exact hv
    have hilen : i < (displaceUpTo pl (some target) (some lods) st i).vertices.length := by
      rw [displaceUpTo_vertices_length]; exact hi
    rw [displaceStep_adaptive_noise_eval pl target lods _ i hilen (by rw [hvi]; exact hcase)]
    rw [hvi, displaceUpTo_blockCoords_getD_of_le _ _ _ _ _ _ (le_refl i)]
    rfl
  · rw [displace_getD_eq_step pl _ _ st i hi]
    have hvi : (displaceUpTo pl none none st i).vertices.getD i default = v := by
      rw [displaceUpTo_getD_of_le _ _ _ _ _ _ (le_refl i)]; exact hv
    have hilen : i < (displaceUpTo pl none none st i).vertices.length := by
      rw [displaceUpTo_vertices_length]; exact hi
    rw [displaceStep_uniform_eval pl none none _ i (Or.inl rfl) hilen]
    rw [hvi, displaceUpTo_blockCoords_getD_of_le _ _ _ _ _ _ (le_refl i)]
    rfl

/-- C2 (amended): when an adaptive-mode vertex qualifies for the parent
blend but a parent lookup is unavailable, the loop `continue`s — the
vertex is left entirely unmoved (no noise fallback). -/
theorem displace_missing_parent_skips (pl : Planet) (target : V3) (lods : List Lod)
    (st : Patch) (i : ℕ) (v : Vertex)
    (hi : i < st.vertices.length) (hv : st.vertices.getD i default = v)
    (hcp : v.centerPiece = false)
    (hsubs : scanLods lods (V3.dist3 target (v.position + pl.position)) ≠ 0)
    (hdepth : scanLods lods (V3.dist3 target (v.position + pl.position)) < v.depth)
    (hmiss : v.parentL = none ∨ v.parentR = none) :
    (displace pl (some target) (some lods) st).vertices.getD i default = v := by
  rw [displace_getD_eq_step pl _ _ st i hi]
  have hvi : (displaceUpTo pl (some target) (some lods) st i).vertices.getD i default = v := by
    rw [displaceUpTo_getD_of_le _ _ _ _ _ _ (le_refl i)]; exact hv
  rw [displaceStep_skip_eval pl target lods _ i
    (by rw [hvi]; exact hcp) (by rw [hvi]; exact hsubs) (by rw [hvi]; exact hdepth)
    (by rw [hvi]; exact hmiss)]
  exact hvi

theorem len_unit_x : V3.len ((1 : ℝ), (0 : ℝ), (0 : ℝ)) = 1 := by
  unfold V3.len
  norm_num

theorem len_neg_unit_x : V3.len ((-1 : ℝ), (0 : ℝ), (0 : ℝ)) = 1 := by
  unfold V3.len
  norm_num

theorem normalize_unit_x :
    V3.normalize ((1 : ℝ), (0 : ℝ), (0 : ℝ)) = ((1 : ℝ), (0 : ℝ), (0 : ℝ)) := by
  unfold V3.normalize
  rw [len_unit_x]
  norm_num

theorem normalize_neg_unit_x :
    V3.normalize ((-1 : ℝ), (0 : ℝ), (0 : ℝ)) = ((-1 : ℝ), (0 : ℝ), (0 : ℝ)) := by
  unfold V3.normalize
  rw [len_neg_unit_x]
  norm_num

/-- C5 amended: displacement moves a vertex along its own direction and
preserves that direction whenever the applied height exceeds the negated
radial distance (`0 < ‖p‖ + h`), which holds in particular whenever the
height is smaller in magnitude than the current radius; a height at or
below `-‖p‖` can reverse the direction through the origin. -/
theorem applyHeight_preserves_direction (p : V3) (h : ℝ) (hh : 0 < V3.len p + h) :
    V3.normalize (applyHeight p h) = V3.normalize p := by
  by_cases hp : V3.len p = 0
  · have hp0 : p = 0 := (V3.len_eq_zero_iff p).mp hp
    subst hp0
    have happ : applyHeight 0 h = 0 := by
      unfold applyHeight V3.normalize
      rw [if_pos hp]
      simp
    rw [happ]
  · have hlpos : 0 < V3.len p := lt_of_le_of_ne (V3.len_nonneg p) (Ne.symm hp)
    have hform : applyHeight p h = (1 + h / V3.len p) • p := by
      unfold applyHeight V3.normalize
      rw [if_neg hp, smul_smul, add_smul, one_smul, mul_one_div]
    have hc : 0 < 1 + h / V3.len p := by
      have h2 : -1 < h / V3.len p := by
        rw [lt_div_iff₀ hlpos]
        linarith
      linarith
    rw [hform]
    unfold V3.normalize
    rw [V3.len_smul, abs_of_pos hc]
    rw [if_neg (mul_ne_zero (ne_of_gt hc) hp), if_neg hp, smul_smul]
    congr 1
    field_simp

/-- Witness for the amended C5 at `p = (1,0,0)`, `h = 1`. -/
theorem applyHeight_preserves_direction_witness :
    V3.normalize (applyHeight ((1 : ℝ), (0 : ℝ), (0 : ℝ)) 1) =
      V3.normalize ((1 : ℝ), (0 : ℝ), (0 : ℝ)) :=
  applyHeight_preserves_direction ((1 : ℝ), (0 : ℝ), (0 : ℝ)) 1
    (by rw [len_unit_x]; norm_num)

theorem len_unit_y : V3.len ((0 : ℝ), (1 : ℝ), (0 : ℝ)) = 1 := by
  unfold V3.len
  norm_num

theorem normalize_unit_y :
    V3.normalize ((0 : ℝ), (1 : ℝ), (0 : ℝ)) = ((0 : ℝ), (1 : ℝ), (0 : ℝ)) := by
  unfold V3.normalize
  rw [len_unit_y]
  norm_num

theorem len_two_x : V3.len ((2 : ℝ), (0 : ℝ), (0 : ℝ)) = 2 := by
  unfold V3.len
  rw [show (2 : ℝ) ^ 2 + (0 : ℝ) ^ 2 + (0 : ℝ) ^ 2 = 2 ^ 2 by norm_num]
  exact Real.sqrt_sq (by norm_num)

theorem len_two_y : V3.len ((0 : ℝ), (2 : ℝ), (0 : ℝ)) = 2 := by
  unfold V3.len
  rw [show (0 : ℝ) ^ 2 + (2 : ℝ) ^ 2 + (0 : ℝ) ^ 2 = 2 ^ 2 by norm_num]
  exact Real.sqrt_sq (by norm_num)

theorem applyHeight_zero (p : V3) : applyHeight p 0 = p := by
  unfold applyHeight
  rw [zero_smul, add_zero]

theorem cex_sample1 (c : V3) : (cexParams.sample3D c 1).1 = 1 := by
  unfold NoiseParams.sample3D
  rw [show Int.toNat ⌈(1 : ℝ)⌉ = 1 by rw [Int.ceil_one]; rfl]
  norm_num [NoiseParams.sample3Dgo, NoiseParams.octaveVal, cexParams]

theorem cex_sample2 (c : V3) : (cexParams.sample3D c 2).1 = 2 := by
  unfold NoiseParams.sample3D
  rw [show Int.toNat ⌈(2 : ℝ)⌉ = 2 by rw [show ⌈(2 : ℝ)⌉ = (2 : ℤ) by norm_num]; decide]
  norm_num [NoiseParams.sample3Dgo, NoiseParams.octaveVal, cexParams]

theorem len_vC : V3.len vC.position = 1 := by
  show V3.len (Real.sqrt 2 / 2, Real.sqrt 2 / 2, (0 : ℝ)) = 1
  unfold V3.len
  have hsq2 : Real.sqrt 2 ^ 2 = 2 := Real.sq_sqrt (by norm_num)
  rw [show (Real.sqrt 2 / 2) ^ 2 + (Real.sqrt 2 / 2) ^ 2 + (0 : ℝ) ^ 2
      = Real.sqrt 2 ^ 2 / 2 by ring]
  rw [hsq2]
  norm_num

theorem normalize_vC : V3.normalize vC.position = vC.position := by
  unfold V3.normalize
  rw [len_vC]
  norm_num

theorem cex_distC : V3.dist3 t0 (vC.position + cexPlanet.position) = 1 := by
  rw [show cexPlanet.position = (0 : V3) from rfl, add_zero]
  show V3.dist3 t0 (Real.sqrt 2 / 2, Real.sqrt 2 / 2, (0 : ℝ)) = 1
  unfold V3.dist3
  have hsub : t0 - (Real.sqrt 2 / 2, Real.sqrt 2 / 2, (0 : ℝ)) =
      (-(Real.sqrt 2 / 2), -(Real.sqrt 2 / 2), (0 : ℝ)) := by
    rw [Prod.ext_iff, Prod.ext_iff]
    refine ⟨?_, ?_, ?_⟩ <;> simp [t0, Prod.fst_sub, Prod.snd_sub]
  rw [hsub]
  unfold V3.len
  have hsq2 : Real.sqrt 2 ^ 2 = 2 := Real.sq_sqrt (by norm_num)
  rw [show (-(Real.sqrt 2 / 2)) ^ 2 + (-(Real.sqrt 2 / 2)) ^ 2 + (0 : ℝ) ^ 2
      = Real.sqrt 2 ^ 2 / 2 by ring]
  rw [hsq2]
  norm_num

theorem cex_scanC : scanLods cexLods (V3.dist3 t0 (vC.position + cexPlanet.position)) = 1 := by
  rw [cex_distC]
  norm_num [scanLods, cexLods]

theorem moveVertex_vA_pos : (moveVertex vA 1).position = ((2 : ℝ), (0 : ℝ), (0 : ℝ)) := by
  show applyHeight ((1 : ℝ), (0 : ℝ), (0 : ℝ)) 1 = _
  unfold applyHeight
  rw [normalize_unit_x, Prod.ext_iff, Prod.ext_iff]
  norm_num

theorem moveVertex_vB_pos : (moveVertex vB 1).position = ((0 : ℝ), (2 : ℝ), (0 : ℝ)) := by
  show applyHeight ((0 : ℝ), (1 : ℝ), (0 : ℝ)) 1 = _
  unfold applyHeight
  rw [normalize_unit_y, Prod.ext_iff, Prod.ext_iff]
  norm_num

theorem cexS1_getD0 :
    (displaceUpTo cexPlanet (some t0) (some cexLods) cexPatch 1).vertices.getD 0 default =
      moveVertex vA 1 := by
  rw [show (1 : ℕ) = 0 + 1 from rfl, displaceUpTo_succ]
  show (displaceStep cexPlanet (some t0) (some cexLods) cexPatch 0).vertices.getD 0 default = _
  rw [displaceStep_adaptive_noise_eval cexPlanet t0 cexLods cexPatch 0
    (by norm_num [cexPatch]) (Or.inr (Or.inr (Nat.zero_le _)))]
  have hdet : (1 + ((cexPatch.vertices.getD 0 default).depth : ℝ) / 2) = 1 := by
    rw [show ((cexPatch.vertices.getD 0 default).depth : ℝ) = ((0 : ℕ) : ℝ) from rfl]
    norm_num
  rw [hdet]
  rw [show (cexPlanet.heightParams.sample3D (cexPatch.blockCoords.getD 0 default) 1).1 = 1
    from cex_sample1 _]
  rfl

theorem cexS2_getD0 :
    (displaceUpTo cexPlanet (some t0) (some cexLods) cexPatch 2).vertices.getD 0 default =
      moveVertex vA 1 := by
  rw [show (2 : ℕ) = 1 + 1 from rfl, displaceUpTo_succ,
    displaceStep_getD_of_ne _ _ _ _ 0 1 (by norm_num), cexS1_getD0]

theorem cexS1_getD1 :
    (displaceUpTo cexPlanet (some t0) (some cexLods) cexPatch 1).vertices.getD 1 default =
      vB := by
  rw [displaceUpTo_getD_of_le _ _ _ _ 1 1 (le_refl 1)]
  rfl

theorem cexS2_getD1 :
    (displaceUpTo cexPlanet (some t0) (some cexLods) cexPatch 2).vertices.getD 1 default =
      moveVertex vB 1 := by
  rw [show (2 : ℕ) = 1 + 1 from rfl, displaceUpTo_succ]
  rw [displaceStep_adaptive_noise_eval cexPlanet t0 cexLods _ 1
    (by rw [displaceUpTo_vertices_length]; norm_num [cexPatch])
    (by rw [cexS1_getD1]; exact Or.inr (Or.inr (Nat.zero_le _)))]
  rw [cexS1_getD1]
  have hdet : (1 + ((vB.depth : ℕ) : ℝ) / 2) = 1 := by
    rw [show ((vB.depth : ℕ) : ℝ) = ((0 : ℕ) : ℝ) from rfl]
    norm_num
  rw [hdet]
  rw [show (cexPlanet.heightParams.sample3D
    ((displaceUpTo cexPlanet (some t0) (some cexLods) cexPatch 1).blockCoords.getD 1 default)
    1).1 = 1 from cex_sample1 _]

theorem cex_plen0 : parentLen cexPlanet (some t0) (some cexLods) cexPatch 2 0 = 2 := by
  unfold parentLen
  rw [cexS2_getD0, moveVertex_vA_pos, len_two_x]

theorem cex_plen1 : parentLen cexPlanet (some t0) (some cexLods) cexPatch 2 1 = 2 := by
  unfold parentLen
  rw [cexS2_getD1, moveVertex_vB_pos, len_two_y]

theorem cex_final :
    (displace cexPlanet (some t0) (some cexLods) cexPatch).vertices.getD 2 default =
      moveVertex vC 1 := by
  rw [displace_getD_eq_step _ _ _ _ 2 (by norm_num [cexPatch])]
  have hvi : (displaceUpTo cexPlanet (some t0) (some cexLods) cexPatch 2).vertices.getD
      2 default = vC := by
    rw [displaceUpTo_getD_of_le _ _ _ _ 2 2 (le_refl 2)]
    rfl
  rw [displaceStep_blend_eval cexPlanet t0 cexLods _ 2 0 1
    (by rw [displaceUpTo_vertices_length]; norm_num [cexPatch])
    (by rw [hvi]; rfl) (by rw [hvi]; rfl) (by rw [hvi]; rfl)
    (by rw [hvi, cex_scanC]; norm_num)
    (by rw [hvi, cex_scanC]; norm_num [vC])
    (by rw [cexS2_getD0, moveVertex_vA_pos, len_two_x]; norm_num)
    (by rw [cexS2_getD1, moveVertex_vB_pos, len_two_y]; norm_num)]
  rw [cexS2_getD0, cexS2_getD1, moveVertex_vA_pos, moveVertex_vB_pos, len_two_x, len_two_y,
    hvi, show cexPlanet.radius = (1 : ℝ) from rfl]
  rw [if_neg (by norm_num)]
  norm_num

theorem applyHeight_vC : applyHeight vC.position 1 =
    (Real.sqrt 2, Real.sqrt 2, (0 : ℝ)) := by
  unfold applyHeight
  rw [normalize_vC, one_smul]
  show ((Real.sqrt 2 / 2 + Real.sqrt 2 / 2 : ℝ), (Real.sqrt 2 / 2 + Real.sqrt 2 / 2 : ℝ),
    ((0 : ℝ) + 0)) = _
  rw [Prod.ext_iff, Prod.ext_iff]
  refine ⟨by ring, by ring, by ring⟩

/-- C1 counterexample: in the three-vertex patch `cexPatch` (unit-sphere
parents at slots 0 and 1, their spherical midpoint `vC` at slot 2,
depth 2, tier table `[(100, 1)]`, viewpoint at the origin) vertex 2
satisfies every condition of the claim's blend case.  Its parents'
*pre-displacement* radial lengths are 1 and 1, so the claim predicts the
applied height `(1+1)/2 − 1 = 0` — the vertex should stay put.  The code
instead displaces the parents first (each to radial length 2, the
constant-1 noise) and then applies `(2+2)/2 − 1 = 1`, moving vertex 2 to
`(√2, √2, 0)`.  Hence the claim, which reads the heights off the
pre-displacement parents, is false. -/
theorem displace_pre_parent_counterexample :
    ((displace cexPlanet (some t0) (some cexLods) cexPatch).vertices.getD 2 default).position ≠
      applyHeight (cexPatch.vertices.getD 2 default).position
        ((V3.len (cexPatch.vertices.getD 0 default).position +
          V3.len (cexPatch.vertices.getD 1 default).position) * 0.5 - cexPlanet.radius) := by
  rw [cex_final]
  rw [show cexPatch.vertices.getD 2 default = vC from rfl,
    show cexPatch.vertices.getD 0 default = vA from rfl,
    show cexPatch.vertices.getD 1 default = vB from rfl,
    show vA.position = ((1 : ℝ), (0 : ℝ), (0 : ℝ)) from rfl,
    show vB.position = ((0 : ℝ), (1 : ℝ), (0 : ℝ)) from rfl,
    len_unit_x, len_unit_y, show cexPlanet.radius = (1 : ℝ) from rfl]
  rw [show ((1 : ℝ) + 1) * 0.5 - 1 = 0 by norm_num, applyHeight_zero]
  show applyHeight vC.position 1 ≠ vC.position
  rw [applyHeight_vC]
  have hpos : 0 < Real.sqrt 2 := Real.sqrt_pos.mpr (by norm_num)
  intro heq
  rw [Prod.ext_iff] at heq
  have h1 : Real.sqrt 2 = Real.sqrt 2 / 2 := heq.1
  linarith

/-- Witness for the amended C1 at the same concrete patch: the applied
height is the parent average taken from the parents' already-displaced
positions (`parentLen … = 2` each), giving `(2+2)/2 − 1`. -/
theorem displace_vertex_height_rule_witness :
    (displace cexPlanet (some t0) (some cexLods) cexPatch).vertices.getD 2 default =
      moveVertex vC ((parentLen cexPlanet (some t0) (some cexLods) cexPatch 2 0 +
        parentLen cexPlanet (some t0) (some cexLods) cexPatch 2 1) * 0.5 -
          cexPlanet.radius) :=
  (displace_vertex_height_rule cexPlanet t0 cexLods cexPatch 2 vC
    (by norm_num [cexPatch]) rfl).1 0 1 rfl rfl rfl
    (by rw [cex_scanC]; norm_num)
    (by rw [cex_scanC]; norm_num [vC])
    (by rw [cex_plen0]; norm_num)
    (by rw [cex_plen1]; norm_num)
    (by rw [cex_plen0, cex_plen1, show cexPlanet.radius = (1 : ℝ) from rfl]; norm_num)

theorem cex_distO : V3.dist3 t0 (vOrphan.position + cexPlanet.position) = 1 := by
  rw [show cexPlanet.position = (0 : V3) from rfl, add_zero]
  show V3.dist3 t0 ((1 : ℝ), (0 : ℝ), (0 : ℝ)) = 1
  unfold V3.dist3
  have hsub : t0 - ((1 : ℝ), (0 : ℝ), (0 : ℝ)) = ((-1 : ℝ), (0 : ℝ), (0 : ℝ)) := by
    rw [Prod.ext_iff, Prod.ext_iff]
    refine ⟨?_, ?_, ?_⟩ <;> simp [t0, Prod.fst_sub, Prod.snd_sub]
  rw [hsub, len_neg_unit_x]

theorem cex_scanO :
    scanLods cexLods (V3.dist3 t0 (vOrphan.position + cexPlanet.position)) = 1 := by
  rw [cex_distO]
  norm_num [scanLods, cexLods]

theorem orphan_final :
    (displace cexPlanet (some t0) (some cexLods) orphanPatch).vertices.getD 0 default =
      vOrphan := by
  rw [displace_getD_eq_step _ _ _ _ 0 (by norm_num [orphanPatch])]
  show (displaceStep cexPlanet (some t0) (some cexLods) orphanPatch 0).vertices.getD
    0 default = vOrphan
  rw [displaceStep_skip_eval cexPlanet t0 cexLods orphanPatch 0 rfl
    (by rw [show orphanPatch.vertices.getD 0 default = vOrphan from rfl, cex_scanO]; norm_num)
    (by rw [show orphanPatch.vertices.getD 0 default = vOrphan from rfl, cex_scanO]
        norm_num [vOrphan])
    (Or.inl rfl)]
  rfl

/-- C2 counterexample: the orphan vertex qualifies for the blend (depth 2
> tier depth 1, non-centerpoint, tier matches at distance 1) but has no
parent references.  The claim says `displace` falls back to the noise
height (here `2`, which would move the vertex from `(1,0,0)` to
`(3,0,0)`); the code instead `continue`s, leaving the vertex at
`(1,0,0)`. -/
theorem displace_missing_parent_counterexample :
    ((displace cexPlanet (some t0) (some cexLods) orphanPatch).vertices.getD 0 default).position ≠
      applyHeight (orphanPatch.vertices.getD 0 default).position
        (cexPlanet.heightAt (orphanPatch.blockCoords.getD 0 default)
          (1 + ((orphanPatch.vertices.getD 0 default).depth : ℝ) / 2)) := by
  rw [orphan_final]
  have hh : cexPlanet.heightAt (orphanPatch.blockCoords.getD 0 default)
      (1 + ((orphanPatch.vertices.getD 0 default).depth : ℝ) / 2) = 2 := by
    have hdet : (1 + ((orphanPatch.vertices.getD 0 default).depth : ℝ) / 2) = 2 := by
      rw [show ((orphanPatch.vertices.getD 0 default).depth : ℝ) = ((2 : ℕ) : ℝ) from rfl]
      norm_num
    rw [hdet]
    exact cex_sample2 _
  rw [hh]
  have happ : applyHeight ((1 : ℝ), (0 : ℝ), (0 : ℝ)) 2 = ((3 : ℝ), (0 : ℝ), (0 : ℝ)) := by
    unfold applyHeight
    rw [normalize_unit_x, Prod.ext_iff, Prod.ext_iff]
    norm_num
  rw [show (orphanPatch.vertices.getD 0 default).position = ((1 : ℝ), (0 : ℝ), (0 : ℝ))
    from rfl, happ, show vOrphan.position = ((1 : ℝ), (0 : ℝ), (0 : ℝ)) from rfl]
  rw [Ne, Prod.ext_iff]
  norm_num

/-- Witness for the amended C2 at the orphan patch: the vertex is left
entirely unmoved. -/
theorem displace_missing_parent_skips_witness :
    (displace cexPlanet (some t0) (some cexLods) orphanPatch).vertices.getD 0 default =
      vOrphan :=
  displace_missing_parent_skips cexPlanet t0 cexLods orphanPatch 0 vOrphan
    (by norm_num [orphanPatch]) rfl rfl
    (by rw [cex_scanO]; norm_num)
    (by rw [cex_scanO]; norm_num [vOrphan])
    (Or.inl rfl)

/-- C5 counterexample: a height of `-2` applied to the unit vertex
`(1,0,0)` (radius 1) moves it to `(-1,0,0)` — through the planet center —
so the normalized direction flips and
`normalize(position_after) ≠ normalize(position_before)`.  The claim as
stated (direction always preserved, for every vertex) is therefore
false. -/
theorem displace_direction_flip_counterexample :
    V3.normalize ((displace flipPlanet none none flipPatch).vertices.getD 0 default).position ≠
      V3.normalize (flipPatch.vertices.getD 0 default).position := by
  have hv0 : flipPatch.vertices.getD 0 default = vA := rfl
  have hres : (flipPlanet.heightParams.sample3D (flipPatch.blockCoords.getD 0 default)
      (1 + ((flipPatch.vertices.getD 0 default).depth : ℝ) / 2)).1 = -2 := by
    have hdet : (1 + ((flipPatch.vertices.getD 0 default).depth : ℝ) / 2) = 1 := by
      rw [hv0]
      show 1 + ((0 : ℕ) : ℝ) / 2 = 1
      norm_num
    rw [hdet]
    show (flipParams.sample3D _ 1).1 = -2
    unfold NoiseParams.sample3D
    rw [show Int.toNat ⌈(1 : ℝ)⌉ = 1 by rw [Int.ceil_one]; rfl]
    norm_num [NoiseParams.sample3Dgo, NoiseParams.octaveVal, flipParams]
  have hstep : (displace flipPlanet none none flipPatch).vertices.getD 0 default =
      moveVertex vA (-2) := by
    rw [displace_getD_eq_step _ _ _ _ 0 (by norm_num [flipPatch])]
    show (displaceStep flipPlanet none none flipPatch 0).vertices.getD 0 default = _
    unfold displaceStep
    dsimp only []
    rw [show ((flipPatch.vertices.getD 0 default)) = vA from rfl] at hres ⊢
    rw [hres]
    exact getD_set_self _ _ _ (by norm_num [flipPatch])
  rw [hstep, hv0]
  have hpos : (moveVertex vA (-2)).position = ((-1 : ℝ), (0 : ℝ), (0 : ℝ)) := by
    show applyHeight ((1 : ℝ), (0 : ℝ), (0 : ℝ)) (-2) = _
    unfold applyHeight
    rw [normalize_unit_x]
    rw [Prod.ext_iff, Prod.ext_iff]
    norm_num
  rw [hpos]
  show V3.normalize ((-1 : ℝ), (0 : ℝ), (0 : ℝ)) ≠ V3.normalize ((1 : ℝ), (0 : ℝ), (0 : ℝ))
  rw [normalize_unit_x, normalize_neg_unit_x]
  rw [Ne, Prod.ext_iff]
  norm_num

theorem surfStep_of_maxDepth_le (pl : Planet) (target : V3) (lods : List Lod)
    (count : ℕ) (h : maxDepth lods ≤ count) (st : Patch × Bool) (q : Quad) :
    surfStep pl target lods count st q = ({ st.1 with quads := st.1.quads ++ [q] }, st.2) := by
  unfold surfStep
  dsimp only []
  rw [if_pos (le_trans (scanLods_le_max lods _) h)]

theorem surf_fold_keep (pl : Planet) (target : V3) (lods : List Lod) (count : ℕ)
    (h : maxDepth lods ≤ count) (qs : List Quad) :
    ∀ (P : Patch) (b : Bool),
      qs.foldl (surfStep pl target lods count) (P, b) =
        ({ P with quads := P.quads ++ qs }, b) := by
  induction qs with
  | nil =>
    intro P b
    rw [List.foldl_nil, List.append_nil]
  | cons q qs ih =>
    intro P b
    rw [List.foldl_cons, surfStep_of_maxDepth_le pl target lods count h, ih,
      List.append_assoc]
    rfl

theorem surfStep_cases (pl : Planet) (target : V3) (lods : List Lod) (count : ℕ)
    (st : Patch × Bool) (q : Quad) :
    surfStep pl target lods count st q = ({ st.1 with quads := st.1.quads ++ [q] }, st.2) ∨
    surfStep pl target lods count st q = (subStep pl.radius st.1 q, true) := by
  unfold surfStep
  dsimp only []
  split_ifs
  · exact Or.inl rfl
  · exact Or.inr rfl

theorem surf_fold_flag_true (pl : Planet) (target : V3) (lods : List Lod) (count : ℕ)
    (qs : List Quad) :
    ∀ s : Patch × Bool, s.2 = true →
      (qs.foldl (surfStep pl target lods count) s).2 = true := by
  induction qs with
  | nil => exact fun s h => h
  | cons q qs ih =>
    intro s h
    rw [List.foldl_cons]
    rcases surfStep_cases pl target lods count s q with hk | hs
    · exact ih _ (by rw [hk]; exact h)
    · exact ih _ (by rw [hs])

theorem surf_fold_false (pl : Planet) (target : V3) (lods : List Lod) (count : ℕ)
    (qs : List Quad) :
    ∀ s : Patch × Bool, (qs.foldl (surfStep pl target lods count) s).2 = false →
      (qs.foldl (surfStep pl target lods count) s).1.vertices = s.1.vertices ∧
      (qs.foldl (surfStep pl target lods count) s).1.blockCoords = s.1.blockCoords ∧
      (qs.foldl (surfStep pl target lods count) s).1.texCoords = s.1.texCoords ∧
      s.2 = false := by
  induction qs with
  | nil => exact fun s h => ⟨rfl, rfl, rfl, h⟩
  | cons q qs ih =>
    intro s h
    rw [List.foldl_cons] at h ⊢
    rcases surfStep_cases pl target lods count s q with hk | hs
    · rw [hk] at h ⊢
      obtain ⟨h1, h2, h3, h4⟩ := ih _ h
      exact ⟨h1, h2, h3, h4⟩
    · rw [hs] at h
      have := surf_fold_flag_true pl target lods count qs
        (subStep pl.radius s.1 q, true) rfl
      rw [h] at this
      exact absurd this (by simp)

/-- C6: the adaptive subdivision driver terminates and is idempotent.
(1) For every count at or past the tier table's maximum subdivision
depth, `subdivideSurface` subdivides nothing: it returns `false` and the
patch unchanged (the tier scan never demands more than the maximum tier
depth).  (2) Whenever `subdivideSurface` returns `false` it has left the
patch unchanged, so further calls at that depth keep returning `false`
on the same state.  (3) Consequently the `createSurfaceMesh` loop that
calls it with counters `count, count+1, …` terminates: any iteration
budget reaching the maximum tier depth yields the same final patch. -/
theorem subdivideSurface_terminates_idempotent :
    (∀ (pl : Planet) (target : V3) (lods : List Lod) (count : ℕ) (p : Patch),
      maxDepth lods ≤ count → subdivideSurface pl target lods count p = (p, false)) ∧
    (∀ (pl : Planet) (target : V3) (lods : List Lod) (count : ℕ) (p : Patch),
      (subdivideSurface pl target lods count p).2 = false →
      (subdivideSurface pl target lods count p).1 = p) ∧
    (∀ (pl : Planet) (target : V3) (lods : List Lod) (p : Patch) (count fuel₁ fuel₂ : ℕ),
      maxDepth lods + 1 ≤ fuel₁ + count → maxDepth lods + 1 ≤ fuel₂ + count →
      surfaceLoop pl target lods fuel₁ p count = surfaceLoop pl target lods fuel₂ p count) := by
  have part1 : ∀ (pl : Planet) (target : V3) (lods : List Lod) (count : ℕ) (p : Patch),
      maxDepth lods ≤ count → subdivideSurface pl target lods count p = (p, false) := by
    intro pl target lods count p h
    unfold subdivideSurface
    dsimp only []
    rw [surf_fold_keep pl target lods count h p.quads { p with quads := [] } false]
    rfl
  have part2 : ∀ (pl : Planet) (target : V3) (lods : List Lod) (count : ℕ) (p : Patch),
      (subdivideSurface pl target lods count p).2 = false →
      (subdivideSurface pl target lods count p).1 = p := by
    intro pl target lods count p h
    unfold subdivideSurface at h ⊢
    dsimp only [] at h ⊢
    by_cases h2 : (p.quads.foldl (surfStep pl target lods count)
        ({ p with quads := [] }, false)).2 = true
    · rw [if_pos h2] at h
      exact absurd h (by simp)
    · rw [if_neg h2] at h ⊢
      have hb : (p.quads.foldl (surfStep pl target lods count)
          ({ p with quads := [] }, false)).2 = false := by
        cases hx : (p.quads.foldl (surfStep pl target lods count)
            ({ p with quads := [] }, false)).2
        · rfl
        · exact absurd hx h2
      obtain ⟨h1, h3, h4, _⟩ := surf_fold_false pl target lods count p.quads _ hb
      show ({ (p.quads.foldl (surfStep pl target lods count)
        ({ p with quads := [] }, false)).1 with quads := p.quads } : Patch) = p
      rcases p with ⟨pv, pb, pt, pq⟩
      simp only [Patch.mk.injEq]
      exact ⟨h1, h3, h4, trivial⟩
  have aux : ∀ (pl : Planet) (target : V3) (lods : List Lod) (count : ℕ) (p : Patch),
      maxDepth lods ≤ count → ∀ fuel, surfaceLoop pl target lods fuel p count = p := by
    intro pl target lods count p h fuel
    cases fuel with
    | zero => rfl
    | succ fuel =>
      show (let res := subdivideSurface pl target lods count p
        if res.2 then surfaceLoop pl target lods fuel res.1 (count + 1) else res.1) = p
      rw [part1 pl target lods count p h]
      rfl
  refine ⟨part1, part2, ?_⟩
  intro pl target lods p count fuel₁ fuel₂ h1 h2
  induction fuel₁ generalizing fuel₂ count p with
  | zero =>
    rw [show surfaceLoop pl target lods 0 p count = p from rfl,
      aux pl target lods count p (by omega) fuel₂]
  | succ f₁ ih =>
    cases fuel₂ with
    | zero =>
      rw [show surfaceLoop pl target lods 0 p count = p from rfl,
        aux pl target lods count p (by omega) (f₁ + 1)]
    | succ f₂ =>
      show (let res := subdivideSurface pl target lods count p
          if res.2 then surfaceLoop pl target lods f₁ res.1 (count + 1) else res.1) =
        (let res := subdivideSurface pl target lods count p
          if res.2 then surfaceLoop pl target lods f₂ res.1 (count + 1) else res.1)
      dsimp only []
      by_cases hres : (subdivideSurface pl target lods count p).2 = true
      · rw [if_pos hres, if_pos hres]
        exact ih _ (count + 1) f₂ (by omega) (by omega)
      · rw [if_neg hres, if_neg hres]

/-- Witness for C6 with an empty tier table (maximum depth 0) on the
one-vertex patch: `subdivideSurface` at count 0 immediately reports
`false` and leaves the patch unchanged, and any loop budget of at least
one iteration gives the same final patch. -/
theorem subdivideSurface_terminates_witness :
    subdivideSurface flipPlanet t0 [] 0 flipPatch = (flipPatch, false) ∧
    (subdivideSurface flipPlanet t0 [] 0 flipPatch).1 = flipPatch ∧
    surfaceLoop flipPlanet t0 [] 1 flipPatch 0 = surfaceLoop flipPlanet t0 [] 2 flipPatch 0 := by
  obtain ⟨h1, h2, h3⟩ := subdivideSurface_terminates_idempotent
  refine ⟨h1 flipPlanet t0 [] 0 flipPatch (by decide),
    h2 flipPlanet t0 [] 0 flipPatch ?_,
    h3 flipPlanet t0 [] flipPatch 0 1 2 (by decide) (by decide)⟩
  rw [h1 flipPlanet t0 [] 0 flipPatch (by decide)]

theorem mid_gridPt (qv u v : V3) (d a b a' b' : ℕ) :
    V3.mid (gridPt qv u v d a b) (gridPt qv u v d a' b') =
      gridPt qv u v (d + 1) (a + a') (b + b') := by
  unfold V3.mid gridPt
  push_cast
  match_scalars <;> ring

theorem gridPt_double (qv u v : V3) (d a b : ℕ) :
    gridPt qv u v d a b = gridPt qv u v (d + 1) (2 * a) (2 * b) := by
  unfold gridPt
  push_cast
  match_scalars <;> ring

theorem gridPt_inj (qv u v : V3) (h : indepUV u v) (d a b a' b' : ℕ)
    (heq : gridPt qv u v d a b = gridPt qv u v d a' b') : a = a' ∧ b = b' := by
  unfold gridPt at heq
  have h0 : (((a : ℝ) / 2 ^ d) - ((a' : ℝ) / 2 ^ d)) • u +
      (((b : ℝ) / 2 ^ d) - ((b' : ℝ) / 2 ^ d)) • v = 0 := by
    have h' := sub_eq_zero.mpr heq
    calc (((a : ℝ) / 2 ^ d) - ((a' : ℝ) / 2 ^ d)) • u +
        (((b : ℝ) / 2 ^ d) - ((b' : ℝ) / 2 ^ d)) • v
        = (qv + ((a : ℝ) / 2 ^ d) • u + ((b : ℝ) / 2 ^ d) • v) -
          (qv + ((a' : ℝ) / 2 ^ d) • u + ((b' : ℝ) / 2 ^ d) • v) := by
          match_scalars <;> ring
      _ = 0 := h'
  obtain ⟨hs, ht⟩ := h _ _ h0
  have hpow : (2 : ℝ) ^ d ≠ 0 := by positivity
  constructor
  · have hc : (a : ℝ) = (a' : ℝ) := by
      field_simp at hs
      linarith
    exact_mod_cast hc
  · have hc : (b : ℝ) = (b' : ℝ) := by
      field_simp at ht
      linarith
    exact_mod_cast hc

theorem getD_append_left {α : Type} [Inhabited α] (l t : List α) (i : ℕ)
    (h : i < l.length) : (l ++ t).getD i default = l.getD i default := by
  simp [List.getD_eq_getElem?_getD, List.getElem?_append_left h]

theorem getD_append_right {α : Type} [Inhabited α] (l t : List α) (r : ℕ) :
    (l ++ t).getD (l.length + r) default = t.getD r default := by
  simp [List.getD_eq_getElem?_getD, List.getElem?_append_right (Nat.le_add_right _ _)]

theorem getD_mem {α : Type} [Inhabited α] (l : List α) (i : ℕ) (h : i < l.length) :
    l.getD i default ∈ l := by
  rw [List.getD_eq_getElem?_getD, List.getElem?_eq_getElem h]
  exact List.getElem_mem _

theorem gridPt_congr (qv u v : V3) (d : ℕ) {a a' b b' : ℕ} (ha : a = a') (hb : b = b') :
    gridPt qv u v d a b = gridPt qv u v d a' b' := by rw [ha, hb]

theorem cell_children_master (qv u v : V3) (d m1 m2 : ℕ) (c0 c1 c2 c3 : V3)
    (hm1 : m1 < 2 ^ d) (hm2 : m2 < 2 ^ d)
    (h : IsCellAt qv u v d m1 m2 c0 c1 c2 c3) :
    (∀ ε δ : ℕ, ε ≤ 1 → δ ≤ 1 →
      IsCellAt qv u v (d + 1) (2 * m1 + ε) (2 * m2 + δ) c0 (V3.mid c0 c1)
        (V3.mid (V3.mid c0 c1) (V3.mid c2 c3)) (V3.mid c3 c0) ∨
      IsCellAt qv u v (d + 1) (2 * m1 + ε) (2 * m2 + δ) c1 (V3.mid c1 c2)
        (V3.mid (V3.mid c0 c1) (V3.mid c2 c3)) (V3.mid c0 c1) ∨
      IsCellAt qv u v (d + 1) (2 * m1 + ε) (2 * m2 + δ) c2 (V3.mid c2 c3)
        (V3.mid (V3.mid c0 c1) (V3.mid c2 c3)) (V3.mid c1 c2) ∨
      IsCellAt qv u v (d + 1) (2 * m1 + ε) (2 * m2 + δ) c3 (V3.mid c3 c0)
        (V3.mid (V3.mid c0 c1) (V3.mid c2 c3)) (V3.mid c2 c3)) ∧
    ((∃ a b, a < 2 ^ (d + 1) ∧ b < 2 ^ (d + 1) ∧
        IsCellAt qv u v (d + 1) a b c0 (V3.mid c0 c1)
          (V3.mid (V3.mid c0 c1) (V3.mid c2 c3)) (V3.mid c3 c0)) ∧
      (∃ a b, a < 2 ^ (d + 1) ∧ b < 2 ^ (d + 1) ∧
        IsCellAt qv u v (d + 1) a b c1 (V3.mid c1 c2)
          (V3.mid (V3.mid c0 c1) (V3.mid c2 c3)) (V3.mid c0 c1)) ∧
      (∃ a b, a < 2 ^ (d + 1) ∧ b < 2 ^ (d + 1) ∧
        IsCellAt qv u v (d + 1) a b c2 (V3.mid c2 c3)
          (V3.mid (V3.mid c0 c1) (V3.mid c2 c3)) (V3.mid c1 c2)) ∧
      (∃ a b, a < 2 ^ (d + 1) ∧ b < 2 ^ (d + 1) ∧
        IsCellAt qv u v (d + 1) a b c3 (V3.mid c3 c0)
          (V3.mid (V3.mid c0 c1) (V3.mid c2 c3)) (V3.mid c2 c3))) ∧
    (∀ x ∈ pushList c0 c1 c2 c3, ∃ a b, a ≤ 2 ^ (d + 1) ∧ b ≤ 2 ^ (d + 1) ∧
      x = gridPt qv u v (d + 1) a b) ∧
    (∀ a b, 2 * m1 ≤ a → a ≤ 2 * m1 + 2 → 2 * m2 ≤ b → b ≤ 2 * m2 + 2 →
      gridPt qv u v (d + 1) a b ∈ c0 :: c1 :: c2 :: c3 :: pushList c0 c1 c2 c3) := by
  have hp : 2 ^ (d + 1) = 2 * 2 ^ d := by ring
  rcases h with ⟨h0, h1, h2, h3⟩ | ⟨h0, h1, h2, h3⟩ | ⟨h0, h1, h2, h3⟩ | ⟨h0, h1, h2, h3⟩
  · -- rotation 0: c0 = P00, c1 = P10, c2 = P11, c3 = P01
    have e0 : c0 = gridPt qv u v (d + 1) (2 * m1) (2 * m2) := by
      rw [h0, gridPt_double]
    have e1 : c1 = gridPt qv u v (d + 1) (2 * m1 + 2) (2 * m2) := by
      rw [h1, gridPt_double]
      exact gridPt_congr qv u v (d + 1) (by ring) (by ring)
    have e2 : c2 = gridPt qv u v (d + 1) (2 * m1 + 2) (2 * m2 + 2) := by
      rw [h2, gridPt_double]
      exact gridPt_congr qv u v (d + 1) (by ring) (by ring)
    have e3 : c3 = gridPt qv u v (d + 1) (2 * m1) (2 * m2 + 2) := by
      rw [h3, gridPt_double]
      exact gridPt_congr qv u v (d + 1) (by ring) (by ring)
    have m01eq : V3.mid c0 c1 = gridPt qv u v (d + 1) (2 * m1 + 1) (2 * m2) := by
      rw [h0, h1, mid_gridPt]
      exact gridPt_congr qv u v (d + 1) (by ring) (by ring)
    have m12eq : V3.mid c1 c2 = gridPt qv u v (d + 1) (2 * m1 + 2) (2 * m2 + 1) := by
      rw [h1, h2, mid_gridPt]
      exact gridPt_congr qv u v (d + 1) (by ring) (by ring)
    have m23eq : V3.mid c2 c3 = gridPt qv u v (d + 1) (2 * m1 + 1) (2 * m2 + 2) := by
      rw [h2, h3, mid_gridPt]
      exact gridPt_congr qv u v (d + 1) (by ring) (by ring)
    have m30eq : V3.mid c3 c0 = gridPt qv u v (d + 1) (2 * m1) (2 * m2 + 1) := by
      rw [h3, h0, mid_gridPt]
      exact gridPt_congr qv u v (d + 1) (by ring) (by ring)
    have ctreq : V3.mid (V3.mid c0 c1) (V3.mid c2 c3) =
        gridPt qv u v (d + 1) (2 * m1 + 1) (2 * m2 + 1) := by
      rw [m01eq, m23eq, mid_gridPt, gridPt_double qv u v (d + 1) (2 * m1 + 1) (2 * m2 + 1)]
      exact gridPt_congr qv u v (d + 2) (by ring) (by ring)
    have hc0 : IsCellAt qv u v (d + 1) (2 * m1) (2 * m2) c0 (V3.mid c0 c1)
        (V3.mid (V3.mid c0 c1) (V3.mid c2 c3)) (V3.mid c3 c0) :=
      Or.inl ⟨e0.trans (gridPt_congr qv u v (d + 1) (by ring) (by ring)),
        m01eq.trans (gridPt_congr qv u v (d + 1) (by ring) (by ring)),
        ctreq.trans (gridPt_congr qv u v (d + 1) (by ring) (by ring)),
        m30eq.trans (gridPt_congr qv u v (d + 1) (by ring) (by ring))⟩
    have hc1 : IsCellAt qv u v (d + 1) (2 * m1 + 1) (2 * m2) c1 (V3.mid c1 c2)
        (V3.mid (V3.mid c0 c1) (V3.mid c2 c3)) (V3.mid c0 c1) :=
      Or.inr (Or.inl ⟨e1.trans (gridPt_congr qv u v (d + 1) (by ring) (by ring)),
        m12eq.trans (gridPt_congr qv u v (d + 1) (by ring) (by ring)),
        ctreq.trans (gridPt_congr qv u v (d + 1) (by ring) (by ring)),
        m01eq.trans (gridPt_congr qv u v (d + 1) (by ring) (by ring))⟩)
    have hc2 : IsCellAt qv u v (d + 1) (2 * m1 + 1) (2 * m2 + 1) c2 (V3.mid c2 c3)
        (V3.mid (V3.mid c0 c1) (V3.mid c2 c3)) (V3.mid c1 c2) :=
      Or.inr (Or.inr (Or.inl ⟨e2.trans (gridPt_congr qv u v (d + 1) (by ring) (by ring)),
        m23eq.trans (gridPt_congr qv u v (d + 1) (by ring) (by ring)),
        ctreq.trans (gridPt_congr qv u v (d + 1) (by ring) (by ring)),
        m12eq.trans (gridPt_congr qv u v (d + 1) (by ring) (by ring))⟩))
    have hc3 : IsCellAt qv u v (d + 1) (2 * m1) (2 * m2 + 1) c3 (V3.mid c3 c0)
        (V3.mid (V3.mid c0 c1) (V3.mid c2 c3)) (V3.mid c2 c3) :=
      Or.inr (Or.inr (Or.inr ⟨e3.trans (gridPt_congr qv u v (d + 1) (by ring) (by ring)),
        m30eq.trans (gridPt_congr qv u v (d + 1) (by ring) (by ring)),
        ctreq.trans (gridPt_congr qv u v (d + 1) (by ring) (by ring)),
        m23eq.trans (gridPt_congr qv u v (d + 1) (by ring) (by ring))⟩))
    refine ⟨?_, ⟨⟨2 * m1, 2 * m2, by omega, by omega, hc0⟩,
      ⟨2 * m1 + 1, 2 * m2, by omega, by omega, hc1⟩,
      ⟨2 * m1 + 1, 2 * m2 + 1, by omega, by omega, hc2⟩,
      ⟨2 * m1, 2 * m2 + 1, by omega, by omega, hc3⟩⟩, ?_, ?_⟩
    · intro ε δ hε hδ
      interval_cases ε <;> interval_cases δ
      · simp only [Nat.add_zero]
        exact Or.inl hc0
      · exact Or.inr (Or.inr (Or.inr (by simpa only [Nat.add_zero] using hc3)))
      · exact Or.inr (Or.inl (by simpa only [Nat.add_zero] using hc1))
      · exact Or.inr (Or.inr (Or.inl hc2))
    · intro x hx
      simp only [pushList, List.mem_cons, List.not_mem_nil, or_false] at hx
      rcases hx with rfl | rfl | rfl | rfl | rfl
      · exact ⟨2 * m1 + 1, 2 * m2 + 1, by omega, by omega, ctreq⟩
      · exact ⟨2 * m1 + 1, 2 * m2, by omega, by omega, m01eq⟩
      · exact ⟨2 * m1 + 2, 2 * m2 + 1, by omega, by omega, m12eq⟩
      · exact ⟨2 * m1 + 1, 2 * m2 + 2, by omega, by omega, m23eq⟩
      · exact ⟨2 * m1, 2 * m2 + 1, by omega, by omega, m30eq⟩
    · intro a b ha1 ha2 hb1 hb2
      obtain ⟨εa, hεa, rfl⟩ : ∃ e, e ≤ 2 ∧ a = 2 * m1 + e := ⟨a - 2 * m1, by omega, by omega⟩
      obtain ⟨εb, hεb, rfl⟩ : ∃ e, e ≤ 2 ∧ b = 2 * m2 + e := ⟨b - 2 * m2, by omega, by omega⟩
      have hm00 : gridPt qv u v (d + 1) (2 * m1) (2 * m2) ∈
          c0 :: c1 :: c2 :: c3 :: pushList c0 c1 c2 c3 := by rw [← e0]; simp [pushList]
      have hm20 : gridPt qv u v (d + 1) (2 * m1 + 2) (2 * m2) ∈
          c0 :: c1 :: c2 :: c3 :: pushList c0 c1 c2 c3 := by rw [← e1]; simp [pushList]
      have hm22 : gridPt qv u v (d + 1) (2 * m1 + 2) (2 * m2 + 2) ∈
          c0 :: c1 :: c2 :: c3 :: pushList c0 c1 c2 c3 := by rw [← e2]; simp [pushList]
      have hm02 : gridPt qv u v (d + 1) (2 * m1) (2 * m2 + 2) ∈
          c0 :: c1 :: c2 :: c3 :: pushList c0 c1 c2 c3 := by rw [← e3]; simp [pushList]
      have hm10 : gridPt qv u v (d + 1) (2 * m1 + 1) (2 * m2) ∈
          c0 :: c1 :: c2 :: c3 :: pushList c0 c1 c2 c3 := by rw [← m01eq]; simp [pushList]
      have hm21 : gridPt qv u v (d + 1) (2 * m1 + 2) (2 * m2 + 1) ∈
          c0 :: c1 :: c2 :: c3 :: pushList c0 c1 c2 c3 := by rw [← m12eq]; simp [pushList]
      have hm12 : gridPt qv u v (d + 1) (2 * m1 + 1) (2 * m2 + 2) ∈
          c0 :: c1 :: c2 :: c3 :: pushList c0 c1 c2 c3 := by rw [← m23eq]; simp [pushList]
      have hm01 : gridPt qv u v (d + 1) (2 * m1) (2 * m2 + 1) ∈
          c0 :: c1 :: c2 :: c3 :: pushList c0 c1 c2 c3 := by rw [← m30eq]; simp [pushList]
      have hm11 : gridPt qv u v (d + 1) (2 * m1 + 1) (2 * m2 + 1) ∈
          c0 :: c1 :: c2 :: c3 :: pushList c0 c1 c2 c3 := by rw [← ctreq]; simp [pushList]
      interval_cases εa <;> interval_cases εb <;>
        (try simp only [Nat.add_zero]) <;> assumption
  · -- rotation 1
    have e0 : c0 = gridPt qv u v (d + 1) (2 * m1 + 2) (2 * m2) := by
      rw [h0, gridPt_double]
      exact gridPt_congr qv u v (d + 1) (by ring) (by ring)
    have e1 : c1 = gridPt qv u v (d + 1) (2 * m1 + 2) (2 * m2 + 2) := by
      rw [h1, gridPt_double]
      exact gridPt_congr qv u v (d + 1) (by ring) (by ring)
    have e2 : c2 = gridPt qv u v (d + 1) (2 * m1) (2 * m2 + 2) := by
      rw [h2, gridPt_double]
      exact gridPt_congr qv u v (d + 1) (by ring) (by ring)
    have e3 : c3 = gridPt qv u v (d + 1) (2 * m1) (2 * m2) := by
      rw [h3, gridPt_double]
    have m01eq : V3.mid c0 c1 = gridPt qv u v (d + 1) (2 * m1 + 2) (2 * m2 + 1) := by
      rw [h0, h1, mid_gridPt]
      exact gridPt_congr qv u v (d + 1) (by ring) (by ring)
    have m12eq : V3.mid c1 c2 = gridPt qv u v (d + 1) (2 * m1 + 1) (2 * m2 + 2) := by
      rw [h1, h2, mid_gridPt]
      exact gridPt_congr qv u v (d + 1) (by ring) (by ring)
    have m23eq : V3.mid c2 c3 = gridPt qv u v (d + 1) (2 * m1) (2 * m2 + 1) := by
      rw [h2, h3, mid_gridPt]
      exact gridPt_congr qv u v (d + 1) (by ring) (by ring)
    have m30eq : V3.mid c3 c0 = gridPt qv u v (d + 1) (2 * m1 + 1) (2 * m2) := by
      rw [h3, h0, mid_gridPt]
      exact gridPt_congr qv u v (d + 1) (by ring) (by ring)
    have ctreq : V3.mid (V3.mid c0 c1) (V3.mid c2 c3) =
        gridPt qv u v (d + 1) (2 * m1 + 1) (2 * m2 + 1) := by
      rw [m01eq, m23eq, mid_gridPt, gridPt_double qv u v (d + 1) (2 * m1 + 1) (2 * m2 + 1)]
      exact gridPt_congr qv u v (d + 2) (by ring) (by ring)
    have hc0 : IsCellAt qv u v (d + 1) (2 * m1 + 1) (2 * m2) c0 (V3.mid c0 c1)
        (V3.mid (V3.mid c0 c1) (V3.mid c2 c3)) (V3.mid c3 c0) :=
      Or.inr (Or.inl ⟨e0.trans (gridPt_congr qv u v (d + 1) (by ring) (by ring)),
        m01eq.trans (gridPt_congr qv u v (d + 1) (by ring) (by ring)),
        ctreq.trans (gridPt_congr qv u v (d + 1) (by ring) (by ring)),
        m30eq.trans (gridPt_congr qv u v (d + 1) (by ring) (by ring))⟩)
    have hc1 : IsCellAt qv u v (d + 1) (2 * m1 + 1) (2 * m2 + 1) c1 (V3.mid c1 c2)
        (V3.mid (V3.mid c0 c1) (V3.mid c2 c3)) (V3.mid c0 c1) :=
      Or.inr (Or.inr (Or.inl ⟨e1.trans (gridPt_congr qv u v (d + 1) (by ring) (by ring)),
        m12eq.trans (gridPt_congr qv u v (d + 1) (by ring) (by ring)),
        ctreq.trans (gridPt_congr qv u v (d + 1) (by ring) (by ring)),
        m01eq.trans (gridPt_congr qv u v (d + 1) (by ring) (by ring))⟩))
    have hc2 : IsCellAt qv u v (d + 1) (2 * m1) (2 * m2 + 1) c2 (V3.mid c2 c3)
        (V3.mid (V3.mid c0 c1) (V3.mid c2 c3)) (V3.mid c1 c2) :=
      Or.inr (Or.inr (Or.inr ⟨e2.trans (gridPt_congr qv u v (d + 1) (by ring) (by ring)),
        m23eq.trans (gridPt_congr qv u v (d + 1) (by ring) (by ring)),
        ctreq.trans (gridPt_congr qv u v (d + 1) (by ring) (by ring)),
        m12eq.trans (gridPt_congr qv u v (d + 1) (by ring) (by ring))⟩))
    have hc3 : IsCellAt qv u v (d + 1) (2 * m1) (2 * m2) c3 (V3.mid c3 c0)
        (V3.mid (V3.mid c0 c1) (V3.mid c2 c3)) (V3.mid c2 c3) :=
      Or.inl ⟨e3.trans (gridPt_congr qv u v (d + 1) (by ring) (by ring)),
        m30eq.trans (gridPt_congr qv u v (d + 1) (by ring) (by ring)),
        ctreq.trans (gridPt_congr qv u v (d + 1) (by ring) (by ring)),
        m23eq.trans (gridPt_congr qv u v (d + 1) (by ring) (by ring))⟩
    refine ⟨?_, ⟨⟨2 * m1 + 1, 2 * m2, by omega, by omega, hc0⟩,
      ⟨2 * m1 + 1, 2 * m2 + 1, by omega, by omega, hc1⟩,
      ⟨2 * m1, 2 * m2 + 1, by omega, by omega, hc2⟩,
      ⟨2 * m1, 2 * m2, by omega, by omega, hc3⟩⟩, ?_, ?_⟩
    · intro ε δ hε hδ
      interval_cases ε <;> interval_cases δ
      · exact Or.inr (Or.inr (Or.inr (by simpa only [Nat.add_zero] using hc3)))
      · exact Or.inr (Or.inr (Or.inl (by simpa only [Nat.add_zero] using hc2)))
      · exact Or.inl (by simpa only [Nat.add_zero] using hc0)
      · exact Or.inr (Or.inl hc1)
    · intro x hx
      simp only [pushList, List.mem_cons, List.not_mem_nil, or_false] at hx
      rcases hx with rfl | rfl | rfl | rfl | rfl
      · exact ⟨2 * m1 + 1, 2 * m2 + 1, by omega, by omega, ctreq⟩
      · exact ⟨2 * m1 + 2, 2 * m2 + 1, by omega, by omega, m01eq⟩
      · exact ⟨2 * m1 + 1, 2 * m2 + 2, by omega, by omega, m12eq⟩
      · exact ⟨2 * m1, 2 * m2 + 1, by omega, by omega, m23eq⟩
      · exact ⟨2 * m1 + 1, 2 * m2, by omega, by omega, m30eq⟩
    · intro a b ha1 ha2 hb1 hb2
      obtain ⟨εa, hεa, rfl⟩ : ∃ e, e ≤ 2 ∧ a = 2 * m1 + e := ⟨a - 2 * m1, by omega, by omega⟩
      obtain ⟨εb, hεb, rfl⟩ : ∃ e, e ≤ 2 ∧ b = 2 * m2 + e := ⟨b - 2 * m2, by omega, by omega⟩
      have hmem0 : gridPt qv u v (d + 1) (2 * m1) (2 * m2) ∈
          c0 :: c1 :: c2 :: c3 :: pushList c0 c1 c2 c3 := by rw [← e3]; simp [pushList]
      have hmem1 : gridPt qv u v (d + 1) (2 * m1) (2 * m2 + 1) ∈
          c0 :: c1 :: c2 :: c3 :: pushList c0 c1 c2 c3 := by rw [← m23eq]; simp [pushList]
      have hmem2 : gridPt qv u v (d + 1) (2 * m1) (2 * m2 + 2) ∈
          c0 :: c1 :: c2 :: c3 :: pushList c0 c1 c2 c3 := by rw [← e2]; simp [pushList]
      have hmem3 : gridPt qv u v (d + 1) (2 * m1 + 1) (2 * m2) ∈
          c0 :: c1 :: c2 :: c3 :: pushList c0 c1 c2 c3 := by rw [← m30eq]; simp [pushList]
      have hmem4 : gridPt qv u v (d + 1) (2 * m1 + 1) (2 * m2 + 1) ∈
          c0 :: c1 :: c2 :: c3 :: pushList c0 c1 c2 c3 := by rw [← ctreq]; simp [pushList]
      have hmem5 : gridPt qv u v (d + 1) (2 * m1 + 1) (2 * m2 + 2) ∈
          c0 :: c1 :: c2 :: c3 :: pushList c0 c1 c2 c3 := by rw [← m12eq]; simp [pushList]
      have hmem6 : gridPt qv u v (d + 1) (2 * m1 + 2) (2 * m2) ∈
          c0 :: c1 :: c2 :: c3 :: pushList c0 c1 c2 c3 := by rw [← e0]; simp [pushList]
      have hmem7 : gridPt qv u v (d + 1) (2 * m1 + 2) (2 * m2 + 1) ∈
          c0 :: c1 :: c2 :: c3 :: pushList c0 c1 c2 c3 := by rw [← m01eq]; simp [pushList]
      have hmem8 : gridPt qv u v (d + 1) (2 * m1 + 2) (2 * m2 + 2) ∈
          c0 :: c1 :: c2 :: c3 :: pushList c0 c1 c2 c3 := by rw [← e1]; simp [pushList]
      interval_cases εa <;> interval_cases εb <;>
        (try simp only [Nat.add_zero]) <;> assumption
  · -- rotation 2
    have e0 : c0 = gridPt qv u v (d + 1) (2 * m1 + 2) (2 * m2 + 2) := by
      rw [h0, gridPt_double]
      exact gridPt_congr qv u v (d + 1) (by ring) (by ring)
    have e1 : c1 = gridPt qv u v (d + 1) (2 * m1) (2 * m2 + 2) := by
      rw [h1, gridPt_double]
      exact gridPt_congr qv u v (d + 1) (by ring) (by ring)
    have e2 : c2 = gridPt qv u v (d + 1) (2 * m1) (2 * m2) := by
      rw [h2, gridPt_double]
    have e3 : c3 = gridPt qv u v (d + 1) (2 * m1 + 2) (2 * m2) := by
      rw [h3, gridPt_double]
      exact gridPt_congr qv u v (d + 1) (by ring) (by ring)
    have m01eq : V3.mid c0 c1 = gridPt qv u v (d + 1) (2 * m1 + 1) (2 * m2 + 2) := by
      rw [h0, h1, mid_gridPt]
      exact gridPt_congr qv u v (d + 1) (by ring) (by ring)
    have m12eq : V3.mid c1 c2 = gridPt qv u v (d + 1) (2 * m1) (2 * m2 + 1) := by
      rw [h1, h2, mid_gridPt]
      exact gridPt_congr qv u v (d + 1) (by ring) (by ring)
    have m23eq : V3.mid c2 c3 = gridPt qv u v (d + 1) (2 * m1 + 1) (2 * m2) := by
      rw [h2, h3, mid_gridPt]
      exact gridPt_congr qv u v (d + 1) (by ring) (by ring)
    have m30eq : V3.mid c3 c0 = gridPt qv u v (d + 1) (2 * m1 + 2) (2 * m2 + 1) := by
      rw [h3, h0, mid_gridPt]
      exact gridPt_congr qv u v (d + 1) (by ring) (by ring)
    have ctreq : V3.mid (V3.mid c0 c1) (V3.mid c2 c3) =
        gridPt qv u v (d + 1) (2 * m1 + 1) (2 * m2 + 1) := by
      rw [m01eq, m23eq, mid_gridPt, gridPt_double qv u v (d + 1) (2 * m1 + 1) (2 * m2 + 1)]
      exact gridPt_congr qv u v (d + 2) (by ring) (by ring)
    have hc0 : IsCellAt qv u v (d + 1) (2 * m1 + 1) (2 * m2 + 1) c0 (V3.mid c0 c1)
        (V3.mid (V3.mid c0 c1) (V3.mid c2 c3)) (V3.mid c3 c0) :=
      Or.inr (Or.inr (Or.inl ⟨e0.trans (gridPt_congr qv u v (d + 1) (by ring) (by ring)),
        m01eq.trans (gridPt_congr qv u v (d + 1) (by ring) (by ring)),
        ctreq.trans (gridPt_congr qv u v (d + 1) (by ring) (by ring)),
        m30eq.trans (gridPt_congr qv u v (d + 1) (by ring) (by ring))⟩))
    have hc1 : IsCellAt qv u v (d + 1) (2 * m1) (2 * m2 + 1) c1 (V3.mid c1 c2)
        (V3.mid (V3.mid c0 c1) (V3.mid c2 c3)) (V3.mid c0 c1) :=
      Or.inr (Or.inr (Or.inr ⟨e1.trans (gridPt_congr qv u v (d + 1) (by ring) (by ring)),
        m12eq.trans (gridPt_congr qv u v (d + 1) (by ring) (by ring)),
        ctreq.trans (gridPt_congr qv u v (d + 1) (by ring) (by ring)),
        m01eq.trans (gridPt_congr qv u v (d + 1) (by ring) (by ring))⟩))
    have hc2 : IsCellAt qv u v (d + 1) (2 * m1) (2 * m2) c2 (V3.mid c2 c3)
        (V3.mid (V3.mid c0 c1) (V3.mid c2 c3)) (V3.mid c1 c2) :=
      Or.inl ⟨e2.trans (gridPt_congr qv u v (d + 1) (by ring) (by ring)),
        m23eq.trans (gridPt_congr qv u v (d + 1) (by ring) (by ring)),
        ctreq.trans (gridPt_congr qv u v (d + 1) (by ring) (by ring)),
        m12eq.trans (gridPt_congr qv u v (d + 1) (by ring) (by ring))⟩
    have hc3 : IsCellAt qv u v (d + 1) (2 * m1 + 1) (2 * m2) c3 (V3.mid c3 c0)
        (V3.mid (V3.mid c0 c1) (V3.mid c2 c3)) (V3.mid c2 c3) :=
      Or.inr (Or.inl ⟨e3.trans (gridPt_congr qv u v (d + 1) (by ring) (by ring)),
        m30eq.trans (gridPt_congr qv u v (d + 1) (by ring) (by ring)),
        ctreq.trans (gridPt_congr qv u v (d + 1) (by ring) (by ring)),
        m23eq.trans (gridPt_congr qv u v (d + 1) (by ring) (by ring))⟩)
    refine ⟨?_, ⟨⟨2 * m1 + 1, 2 * m2 + 1, by omega, by omega, hc0⟩,
      ⟨2 * m1, 2 * m2 + 1, by omega, by omega, hc1⟩,
      ⟨2 * m1, 2 * m2, by omega, by omega, hc2⟩,
      ⟨2 * m1 + 1, 2 * m2, by omega, by omega, hc3⟩⟩, ?_, ?_⟩
    · intro ε δ hε hδ
      interval_cases ε <;> interval_cases δ
      · exact Or.inr (Or.inr (Or.inl (by simpa only [Nat.add_zero] using hc2)))
      · exact Or.inr (Or.inl (by simpa only [Nat.add_zero] using hc1))
      · exact Or.inr (Or.inr (Or.inr (by simpa only [Nat.add_zero] using hc3)))
      · exact Or.inl hc0
    · intro x hx
      simp only [pushList, List.mem_cons, List.not_mem_nil, or_false] at hx
      rcases hx with rfl | rfl | rfl | rfl | rfl
      · exact ⟨2 * m1 + 1, 2 * m2 + 1, by omega, by omega, ctreq⟩
      · exact ⟨2 * m1 + 1, 2 * m2 + 2, by omega, by omega, m01eq⟩
      · exact ⟨2 * m1, 2 * m2 + 1, by omega, by omega, m12eq⟩
      · exact ⟨2 * m1 + 1, 2 * m2, by omega, by omega, m23eq⟩
      · exact ⟨2 * m1 + 2, 2 * m2 + 1, by omega, by omega, m30eq⟩
    · intro a b ha1 ha2 hb1 hb2
      obtain ⟨εa, hεa, rfl⟩ : ∃ e, e ≤ 2 ∧ a = 2 * m1 + e := ⟨a - 2 * m1, by omega, by omega⟩
      obtain ⟨εb, hεb, rfl⟩ : ∃ e, e ≤ 2 ∧ b = 2 * m2 + e := ⟨b - 2 * m2, by omega, by omega⟩
      have hmem0 : gridPt qv u v (d + 1) (2 * m1) (2 * m2) ∈
          c0 :: c1 :: c2 :: c3 :: pushList c0 c1 c2 c3 := by rw [← e2]; simp [pushList]
      have hmem1 : gridPt qv u v (d + 1) (2 * m1) (2 * m2 + 1) ∈
          c0 :: c1 :: c2 :: c3 :: pushList c0 c1 c2 c3 := by rw [← m12eq]; simp [pushList]
      have hmem2 : gridPt qv u v (d + 1) (2 * m1) (2 * m2 + 2) ∈
          c0 :: c1 :: c2 :: c3 :: pushList c0 c1 c2 c3 := by rw [← e1]; simp [pushList]
      have hmem3 : gridPt qv u v (d + 1) (2 * m1 + 1) (2 * m2) ∈
          c0 :: c1 :: c2 :: c3 :: pushList c0 c1 c2 c3 := by rw [← m23eq]; simp [pushList]
      have hmem4 : gridPt qv u v (d + 1) (2 * m1 + 1) (2 * m2 + 1) ∈
          c0 :: c1 :: c2 :: c3 :: pushList c0 c1 c2 c3 := by rw [← ctreq]; simp [pushList]
      have hmem5 : gridPt qv u v (d + 1) (2 * m1 + 1) (2 * m2 + 2) ∈
          c0 :: c1 :: c2 :: c3 :: pushList c0 c1 c2 c3 := by rw [← m01eq]; simp [pushList]
      have hmem6 : gridPt qv u v (d + 1) (2 * m1 + 2) (2 * m2) ∈
          c0 :: c1 :: c2 :: c3 :: pushList c0 c1 c2 c3 := by rw [← e3]; simp [pushList]
      have hmem7 : gridPt qv u v (d + 1) (2 * m1 + 2) (2 * m2 + 1) ∈
          c0 :: c1 :: c2 :: c3 :: pushList c0 c1 c2 c3 := by rw [← m30eq]; simp [pushList]
      have hmem8 : gridPt qv u v (d + 1) (2 * m1 + 2) (2 * m2 + 2) ∈
          c0 :: c1 :: c2 :: c3 :: pushList c0 c1 c2 c3 := by rw [← e0]; simp [pushList]
      interval_cases εa <;> interval_cases εb <;>
        (try simp only [Nat.add_zero]) <;> assumption
  · -- rotation 3
    have e0 : c0 = gridPt qv u v (d + 1) (2 * m1) (2 * m2 + 2) := by
      rw [h0, gridPt_double]
      exact gridPt_congr qv u v (d + 1) (by ring) (by ring)
    have e1 : c1 = gridPt qv u v (d + 1) (2 * m1) (2 * m2) := by
      rw [h1, gridPt_double]
    have e2 : c2 = gridPt qv u v (d + 1) (2 * m1 + 2) (2 * m2) := by
      rw [h2, gridPt_double]
      exact gridPt_congr qv u v (d + 1) (by ring) (by ring)
    have e3 : c3 = gridPt qv u v (d + 1) (2 * m1 + 2) (2 * m2 + 2) := by
      rw [h3, gridPt_double]
      exact gridPt_congr qv u v (d + 1) (by ring) (by ring)
    have m01eq : V3.mid c0 c1 = gridPt qv u v (d + 1) (2 * m1) (2 * m2 + 1) := by
      rw [h0, h1, mid_gridPt]
      exact gridPt_congr qv u v (d + 1) (by ring) (by ring)
    have m12eq : V3.mid c1 c2 = gridPt qv u v (d + 1) (2 * m1 + 1) (2 * m2) := by
      rw [h1, h2, mid_gridPt]
      exact gridPt_congr qv u v (d + 1) (by ring) (by ring)
    have m23eq : V3.mid c2 c3 = gridPt qv u v (d + 1) (2 * m1 + 2) (2 * m2 + 1) := by
      rw [h2, h3, mid_gridPt]
      exact gridPt_congr qv u v (d + 1) (by ring) (by ring)
    have m30eq : V3.mid c3 c0 = gridPt qv u v (d + 1) (2 * m1 + 1) (2 * m2 + 2) := by
      rw [h3, h0, mid_gridPt]
      exact gridPt_congr qv u v (d + 1) (by ring) (by ring)
    have ctreq : V3.mid (V3.mid c0 c1) (V3.mid c2 c3) =
        gridPt qv u v (d + 1) (2 * m1 + 1) (2 * m2 + 1) := by
      rw [m01eq, m23eq, mid_gridPt, gridPt_double qv u v (d + 1) (2 * m1 + 1) (2 * m2 + 1)]
      exact gridPt_congr qv u v (d + 2) (by ring) (by ring)
    have hc0 : IsCellAt qv u v (d + 1) (2 * m1) (2 * m2 + 1) c0 (V3.mid c0 c1)
        (V3.mid (V3.mid c0 c1) (V3.mid c2 c3)) (V3.mid c3 c0) :=
      Or.inr (Or.inr (Or.inr ⟨e0.trans (gridPt_congr qv u v (d + 1) (by ring) (by ring)),
        m01eq.trans (gridPt_congr qv u v (d + 1) (by ring) (by ring)),
        ctreq.trans (gridPt_congr qv u v (d + 1) (by ring) (by ring)),
        m30eq.trans (gridPt_congr qv u v (d + 1) (by ring) (by ring))⟩))
    have hc1 : IsCellAt qv u v (d + 1) (2 * m1) (2 * m2) c1 (V3.mid c1 c2)
        (V3.mid (V3.mid c0 c1) (V3.mid c2 c3)) (V3.mid c0 c1) :=
      Or.inl ⟨e1.trans (gridPt_congr qv u v (d + 1) (by ring) (by ring)),
        m12eq.trans (gridPt_congr qv u v (d + 1) (by ring) (by ring)),
        ctreq.trans (gridPt_congr qv u v (d + 1) (by ring) (by ring)),
        m01eq.trans (gridPt_congr qv u v (d + 1) (by ring) (by ring))⟩
    have hc2 : IsCellAt qv u v (d + 1) (2 * m1 + 1) (2 * m2) c2 (V3.mid c2 c3)
        (V3.mid (V3.mid c0 c1) (V3.mid c2 c3)) (V3.mid c1 c2) :=
      Or.inr (Or.inl ⟨e2.trans (gridPt_congr qv u v (d + 1) (by ring) (by ring)),
        m23eq.trans (gridPt_congr qv u v (d + 1) (by ring) (by ring)),
        ctreq.trans (gridPt_congr qv u v (d + 1) (by ring) (by ring)),
        m12eq.trans (gridPt_congr qv u v (d + 1) (by ring) (by ring))⟩)
    have hc3 : IsCellAt qv u v (d + 1) (2 * m1 + 1) (2 * m2 + 1) c3 (V3.mid c3 c0)
        (V3.mid (V3.mid c0 c1) (V3.mid c2 c3)) (V3.mid c2 c3) :=
      Or.inr (Or.inr (Or.inl ⟨e3.trans (gridPt_congr qv u v (d + 1) (by ring) (by ring)),
        m30eq.trans (gridPt_congr qv u v (d + 1) (by ring) (by ring)),
        ctreq.trans (gridPt_congr qv u v (d + 1) (by ring) (by ring)),
        m23eq.trans (gridPt_congr qv u v (d + 1) (by ring) (by ring))⟩))
    refine ⟨?_, ⟨⟨2 * m1, 2 * m2 + 1, by omega, by omega, hc0⟩,
      ⟨2 * m1, 2 * m2, by omega, by omega, hc1⟩,
      ⟨2 * m1 + 1, 2 * m2, by omega, by omega, hc2⟩,
      ⟨2 * m1 + 1, 2 * m2 + 1, by omega, by omega, hc3⟩⟩, ?_, ?_⟩
    · intro ε δ hε hδ
      interval_cases ε <;> interval_cases δ
      · exact Or.inr (Or.inl (by simpa only [Nat.add_zero] using hc1))
      · exact Or.inl (by simpa only [Nat.add_zero] using hc0)
      · exact Or.inr (Or.inr (Or.inl (by simpa only [Nat.add_zero] using hc2)))
      · exact Or.inr (Or.inr (Or.inr hc3))
    · intro x hx
      simp only [pushList, List.mem_cons, List.not_mem_nil, or_false] at hx
      rcases hx with rfl | rfl | rfl | rfl | rfl
      · exact ⟨2 * m1 + 1, 2 * m2 + 1, by omega, by omega, ctreq⟩
      · exact ⟨2 * m1, 2 * m2 + 1, by omega, by omega, m01eq⟩
      · exact ⟨2 * m1 + 1, 2 * m2, by omega, by omega, m12eq⟩
      · exact ⟨2 * m1 + 2, 2 * m2 + 1, by omega, by omega, m23eq⟩
      · exact ⟨2 * m1 + 1, 2 * m2 + 2, by omega, by omega, m30eq⟩
    · intro a b ha1 ha2 hb1 hb2
      obtain ⟨εa, hεa, rfl⟩ : ∃ e, e ≤ 2 ∧ a = 2 * m1 + e := ⟨a - 2 * m1, by omega, by omega⟩
      obtain ⟨εb, hεb, rfl⟩ : ∃ e, e ≤ 2 ∧ b = 2 * m2 + e := ⟨b - 2 * m2, by omega, by omega⟩
      have hmem0 : gridPt qv u v (d + 1) (2 * m1) (2 * m2) ∈
          c0 :: c1 :: c2 :: c3 :: pushList c0 c1 c2 c3 := by rw [← e1]; simp [pushList]
      have hmem1 : gridPt qv u v (d + 1) (2 * m1) (2 * m2 + 1) ∈
          c0 :: c1 :: c2 :: c3 :: pushList c0 c1 c2 c3 := by rw [← m01eq]; simp [pushList]
      have hmem2 : gridPt qv u v (d + 1) (2 * m1) (2 * m2 + 2) ∈
          c0 :: c1 :: c2 :: c3 :: pushList c0 c1 c2 c3 := by rw [← e0]; simp [pushList]
      have hmem3 : gridPt qv u v (d + 1) (2 * m1 + 1) (2 * m2) ∈
          c0 :: c1 :: c2 :: c3 :: pushList c0 c1 c2 c3 := by rw [← m12eq]; simp [pushList]
      have hmem4 : gridPt qv u v (d + 1) (2 * m1 + 1) (2 * m2 + 1) ∈
          c0 :: c1 :: c2 :: c3 :: pushList c0 c1 c2 c3 := by rw [← ctreq]; simp [pushList]
      have hmem5 : gridPt qv u v (d + 1) (2 * m1 + 1) (2 * m2 + 2) ∈
          c0 :: c1 :: c2 :: c3 :: pushList c0 c1 c2 c3 := by rw [← m30eq]; simp [pushList]
      have hmem6 : gridPt qv u v (d + 1) (2 * m1 + 2) (2 * m2) ∈
          c0 :: c1 :: c2 :: c3 :: pushList c0 c1 c2 c3 := by rw [← e2]; simp [pushList]
      have hmem7 : gridPt qv u v (d + 1) (2 * m1 + 2) (2 * m2 + 1) ∈
          c0 :: c1 :: c2 :: c3 :: pushList c0 c1 c2 c3 := by rw [← m23eq]; simp [pushList]
      have hmem8 : gridPt qv u v (d + 1) (2 * m1 + 2) (2 * m2 + 2) ∈
          c0 :: c1 :: c2 :: c3 :: pushList c0 c1 c2 c3 := by rw [← e3]; simp [pushList]
      interval_cases εa <;> interval_cases εb <;>
        (try simp only [Nat.add_zero]) <;> assumption

theorem subStep_spec (radius : ℝ) (st : Patch) (q : Quad) :
    (subStep radius st q).blockCoords = st.blockCoords ++ pushList
      (st.blockCoords.getD q.1 default) (st.blockCoords.getD q.2.1 default)
      (st.blockCoords.getD q.2.2.1 default) (st.blockCoords.getD q.2.2.2 default) ∧
    (subStep radius st q).vertices.length = st.vertices.length + 5 ∧
    (subStep radius st q).blockCoords.length = st.blockCoords.length + 5 ∧
    (subStep radius st q).quads = st.quads ++
      [(q.1, st.vertices.length + 1, st.vertices.length, st.vertices.length + 4),
       (q.2.1, st.vertices.length + 2, st.vertices.length, st.vertices.length + 1),
       (q.2.2.1, st.vertices.length + 3, st.vertices.length, st.vertices.length + 2),
       (q.2.2.2, st.vertices.length + 4, st.vertices.length, st.vertices.length + 3)] := by
  refine ⟨rfl, ?_, ?_, rfl⟩
  · show (st.vertices ++ _).length = _
    simp
  · show (st.blockCoords ++ _).length = _
    simp [pushList]

theorem GoodQuad_mono (qv u v : V3) (d : ℕ) (bcs t : List V3) (qd : Quad)
    (h : GoodQuad qv u v d bcs qd) : GoodQuad qv u v d (bcs ++ t) qd := by
  obtain ⟨h1, h2, h3, h4, m1, m2, hm1, hm2, hc⟩ := h
  refine ⟨by simp; omega, by simp; omega, by simp; omega, by simp; omega,
    m1, m2, hm1, hm2, ?_⟩
  rw [getD_append_left _ _ _ h1, getD_append_left _ _ _ h2,
    getD_append_left _ _ _ h3, getD_append_left _ _ _ h4]
  exact hc

theorem getD_append_right' {α : Type} [Inhabited α] (l t : List α) (i : ℕ)
    (h : l.length ≤ i) : (l ++ t).getD i default = t.getD (i - l.length) default := by
  simp [List.getD_eq_getElem?_getD, List.getElem?_append_right h]

/-- The workhorse induction for uniform subdivision: folding `subStep`
over a list of level-`d` cell quads (read against the round-start block
coordinates `base`) grows the parallel sequences append-only, keeps every
block coordinate a level-`(d+1)` grid point, makes every accumulated quad
a level-`(d+1)` cell, covers all four subcells of every processed quad,
and materialises all nine level-`(d+1)` grid points of every processed
cell. -/
theorem subdivide_fold_inv (radius : ℝ) (qv u v : V3) (d : ℕ) (base : List V3) :
    ∀ (qs : List Quad) (S : Patch),
      (∀ qd ∈ qs, GoodQuad qv u v d base qd) →
      (∃ t, S.blockCoords = base ++ t) →
      S.vertices.length = S.blockCoords.length →
      (∀ x ∈ S.blockCoords, InGrid qv u v (d + 1) x) →
      (∀ qd ∈ S.quads, GoodQuad qv u v (d + 1) S.blockCoords qd) →
      (∃ t, (qs.foldl (subStep radius) S).blockCoords = S.blockCoords ++ t) ∧
      (∃ tq, (qs.foldl (subStep radius) S).quads = S.quads ++ tq) ∧
      (qs.foldl (subStep radius) S).vertices.length =
        (qs.foldl (subStep radius) S).blockCoords.length ∧
      (∀ x ∈ (qs.foldl (subStep radius) S).blockCoords, InGrid qv u v (d + 1) x) ∧
      (∀ qd ∈ (qs.foldl (subStep radius) S).quads,
        GoodQuad qv u v (d + 1) (qs.foldl (subStep radius) S).blockCoords qd) ∧
      (∀ qd ∈ qs, ∀ m1 m2, m1 < 2 ^ d → m2 < 2 ^ d →
        QuadIsCell qv u v d m1 m2 base qd →
        (∀ ε δ : ℕ, ε ≤ 1 → δ ≤ 1 → ∃ qd' ∈ (qs.foldl (subStep radius) S).quads,
          QuadIsCell qv u v (d + 1) (2 * m1 + ε) (2 * m2 + δ)
            (qs.foldl (subStep radius) S).blockCoords qd') ∧
        (∀ a b, 2 * m1 ≤ a → a ≤ 2 * m1 + 2 → 2 * m2 ≤ b → b ≤ 2 * m2 + 2 →
          gridPt qv u v (d + 1) a b ∈ (qs.foldl (subStep radius) S).blockCoords)) := by
  intro qs
  induction qs with
  | nil =>
    intro S _ hpre hlen hsub hgood
    exact ⟨⟨[], by simp⟩, ⟨[], by simp⟩, hlen, hsub, hgood,
      fun qd h => absurd h (List.not_mem_nil _)⟩
  | cons qd qs ih =>
    intro S hqs hpre hlen hsub hgood
    rw [List.foldl_cons]
    obtain ⟨t, ht⟩ := hpre
    obtain ⟨hbc1, hvlen1, hbclen1, hquads1⟩ := subStep_spec radius S qd
    obtain ⟨hi1, hi2, hi3, hi4, m1, m2, hm1, hm2, hcell⟩ :=
      hqs qd (List.mem_cons_self _ _)
    have hblen : base.length ≤ S.blockCoords.length := by rw [ht]; simp
    have hg1 : S.blockCoords.getD qd.1 default = base.getD qd.1 default := by
      rw [ht]; exact getD_append_left _ _ _ hi1
    have hg2 : S.blockCoords.getD qd.2.1 default = base.getD qd.2.1 default := by
      rw [ht]; exact getD_append_left _ _ _ hi2
    have hg3 : S.blockCoords.getD qd.2.2.1 default = base.getD qd.2.2.1 default := by
      rw [ht]; exact getD_append_left _ _ _ hi3
    have hg4 : S.blockCoords.getD qd.2.2.2 default = base.getD qd.2.2.2 default := by
      rw [ht]; exact getD_append_left _ _ _ hi4
    rw [hg1, hg2, hg3, hg4] at hbc1
    obtain ⟨hcover, ⟨hch0, hch1, hch2, hch3⟩, hpushsub, h9⟩ :=
      cell_children_master qv u v d m1 m2 _ _ _ _ hm1 hm2 hcell
    have hcg : ∀ i, i < base.length →
        (subStep radius S qd).blockCoords.getD i default = base.getD i default := by
      intro i hi
      rw [hbc1, getD_append_left _ _ _ (lt_of_lt_of_le hi hblen), ht,
        getD_append_left _ _ _ hi]
    have hv0 : (subStep radius S qd).blockCoords.getD S.vertices.length default =
        V3.mid (V3.mid (base.getD qd.1 default) (base.getD qd.2.1 default))
          (V3.mid (base.getD qd.2.2.1 default) (base.getD qd.2.2.2 default)) := by
      rw [hbc1, getD_append_right' _ _ _ (by omega),
        show S.vertices.length - S.blockCoords.length = 0 from by omega]
      rfl
    have hv1 : (subStep radius S qd).blockCoords.getD (S.vertices.length + 1) default =
        V3.mid (base.getD qd.1 default) (base.getD qd.2.1 default) := by
      rw [hbc1, getD_append_right' _ _ _ (by omega),
        show S.vertices.length + 1 - S.blockCoords.length = 1 from by omega]
      rfl
    have hv2 : (subStep radius S qd).blockCoords.getD (S.vertices.length + 2) default =
        V3.mid (base.getD qd.2.1 default) (base.getD qd.2.2.1 default) := by
      rw [hbc1, getD_append_right' _ _ _ (by omega),
        show S.vertices.length + 2 - S.blockCoords.length = 2 from by omega]
      rfl
    have hv3 : (subStep radius S qd).blockCoords.getD (S.vertices.length + 3) default =
        V3.mid (base.getD qd.2.2.1 default) (base.getD qd.2.2.2 default) := by
      rw [hbc1, getD_append_right' _ _ _ (by omega),
        show S.vertices.length + 3 - S.blockCoords.length = 3 from by omega]
      rfl
    have hv4 : (subStep radius S qd).blockCoords.getD (S.vertices.length + 4) default =
        V3.mid (base.getD qd.2.2.2 default) (base.getD qd.1 default) := by
      rw [hbc1, getD_append_right' _ _ _ (by omega),
        show S.vertices.length + 4 - S.blockCoords.length = 4 from by omega]
      rfl
    have hchild0 : GoodQuad qv u v (d + 1) (subStep radius S qd).blockCoords
        (qd.1, S.vertices.length + 1, S.vertices.length, S.vertices.length + 4) := by
      obtain ⟨a, b, ha, hb, hc⟩ := hch0
      refine ⟨show qd.1 < (subStep radius S qd).blockCoords.length from by omega,
        show S.vertices.length + 1 < (subStep radius S qd).blockCoords.length from by omega,
        show S.vertices.length < (subStep radius S qd).blockCoords.length from by omega,
        show S.vertices.length + 4 < (subStep radius S qd).blockCoords.length from by omega,
        a, b, ha, hb, ?_⟩
      show IsCellAt qv u v (d + 1) a b _ _ _ _
      rw [hcg qd.1 hi1, hv1, hv0, hv4]
      exact hc
    have hchild1 : GoodQuad qv u v (d + 1) (subStep radius S qd).blockCoords
        (qd.2.1, S.vertices.length + 2, S.vertices.length, S.vertices.length + 1) := by
      obtain ⟨a, b, ha, hb, hc⟩ := hch1
      refine ⟨show qd.2.1 < (subStep radius S qd).blockCoords.length from by omega,
        show S.vertices.length + 2 < (subStep radius S qd).blockCoords.length from by omega,
        show S.vertices.length < (subStep radius S qd).blockCoords.length from by omega,
        show S.vertices.length + 1 < (subStep radius S qd).blockCoords.length from by omega,
        a, b, ha, hb, ?_⟩
      show IsCellAt qv u v (d + 1) a b _ _ _ _
      rw [hcg qd.2.1 hi2, hv2, hv0, hv1]
      exact hc
    have hchild2 : GoodQuad qv u v (d + 1) (subStep radius S qd).blockCoords
        (qd.2.2.1, S.vertices.length + 3, S.vertices.length, S.vertices.length + 2) := by
      obtain ⟨a, b, ha, hb, hc⟩ := hch2
      refine ⟨show qd.2.2.1 < (subStep radius S qd).blockCoords.length from by omega,
        show S.vertices.length + 3 < (subStep radius S qd).blockCoords.length from by omega,
        show S.vertices.length < (subStep radius S qd).blockCoords.length from by omega,
        show S.vertices.length + 2 < (subStep radius S qd).blockCoords.length from by omega,
        a, b, ha, hb, ?_⟩
      show IsCellAt qv u v (d + 1) a b _ _ _ _
      rw [hcg qd.2.2.1 hi3, hv3, hv0, hv2]
      exact hc
    have hchild3 : GoodQuad qv u v (d + 1) (subStep radius S qd).blockCoords
        (qd.2.2.2, S.vertices.length + 4, S.vertices.length, S.vertices.length + 3) := by
      obtain ⟨a, b, ha, hb, hc⟩ := hch3
      refine ⟨show qd.2.2.2 < (subStep radius S qd).blockCoords.length from by omega,
        show S.vertices.length + 4 < (subStep radius S qd).blockCoords.length from by omega,
        show S.vertices.length < (subStep radius S qd).blockCoords.length from by omega,
        show S.vertices.length + 3 < (subStep radius S qd).blockCoords.length from by omega,
        a, b, ha, hb, ?_⟩
      show IsCellAt qv u v (d + 1) a b _ _ _ _
      rw [hcg qd.2.2.2 hi4, hv4, hv0, hv3]
      exact hc
    have hpre1 : ∃ t', (subStep radius S qd).blockCoords = base ++ t' :=
      ⟨t ++ _, by rw [hbc1, ht, List.append_assoc]⟩
    have hlen1 : (subStep radius S qd).vertices.length =
        (subStep radius S qd).blockCoords.length := by
      rw [hvlen1, hbclen1, hlen]
    have hsub1 : ∀ x ∈ (subStep radius S qd).blockCoords, InGrid qv u v (d + 1) x := by
      intro x hx
      rw [hbc1] at hx
      rcases List.mem_append.mp hx with hx | hx
      · exact hsub x hx
      · exact hpushsub x hx
    have hgood1 : ∀ qd' ∈ (subStep radius S qd).quads,
        GoodQuad qv u v (d + 1) (subStep radius S qd).blockCoords qd' := by
      intro qd' hqd'
      rw [hquads1] at hqd'
      rcases List.mem_append.mp hqd' with hqd' | hqd'
      · have := hgood qd' hqd'
        rw [show (subStep radius S qd).blockCoords = S.blockCoords ++ _ from hbc1]
        exact GoodQuad_mono qv u v (d + 1) _ _ _ this
      · simp only [List.mem_cons, List.not_mem_nil, or_false] at hqd'
        rcases hqd' with rfl | rfl | rfl | rfl
        · exact hchild0
        · exact hchild1
        · exact hchild2
        · exact hchild3
    obtain ⟨⟨tf, htf⟩, ⟨tqf, htqf⟩, hlenF, hsubF, hgoodF, hlastF⟩ :=
      ih _ (fun q hq => hqs q (List.mem_cons_of_mem _ hq)) hpre1 hlen1 hsub1 hgood1
    refine ⟨⟨pushList (base.getD qd.1 default) (base.getD qd.2.1 default)
        (base.getD qd.2.2.1 default) (base.getD qd.2.2.2 default) ++ tf,
        by rw [htf, hbc1, List.append_assoc]⟩,
      ⟨[(qd.1, S.vertices.length + 1, S.vertices.length, S.vertices.length + 4),
        (qd.2.1, S.vertices.length + 2, S.vertices.length, S.vertices.length + 1),
        (qd.2.2.1, S.vertices.length + 3, S.vertices.length, S.vertices.length + 2),
        (qd.2.2.2, S.vertices.length + 4, S.vertices.length, S.vertices.length + 3)] ++ tqf,
        by rw [htqf, hquads1, List.append_assoc]⟩, hlenF, hsubF, hgoodF, ?_⟩
    intro qd' hqd' m1' m2' hm1' hm2' hcell'
    rcases List.mem_cons.mp hqd' with rfl | hqd'
    · -- the head quad: its children sit in the fold result
      obtain ⟨hcover', _, _, h9'⟩ :=
        cell_children_master qv u v d m1' m2' _ _ _ _ hm1' hm2' hcell'
      have hstable : ∀ i, i < (subStep radius S qd').blockCoords.length →
          (qs.foldl (subStep radius) (subStep radius S qd')).blockCoords.getD i default =
            (subStep radius S qd').blockCoords.getD i default := by
        intro i hi
        rw [htf]
        exact getD_append_left _ _ _ hi
      have hmemq : ∀ x ∈ (subStep radius S qd').quads,
          x ∈ (qs.foldl (subStep radius) (subStep radius S qd')).quads := by
        intro x hx
        rw [htqf]
        exact List.mem_append_left _ hx
      constructor
      · intro ε δ hε hδ
        have hlt0 : qd'.1 < (subStep radius S qd').blockCoords.length := by omega
        have hlt1 : S.vertices.length + 1 < (subStep radius S qd').blockCoords.length := by
          omega
        have hlt2 : S.vertices.length + 2 < (subStep radius S qd').blockCoords.length := by
          omega
        have hlt3 : S.vertices.length + 3 < (subStep radius S qd').blockCoords.length := by
          omega
        have hlt4 : S.vertices.length + 4 < (subStep radius S qd').blockCoords.length := by
          omega
        have hltn : S.vertices.length < (subStep radius S qd').blockCoords.length := by omega
        have hltb1 : qd'.2.1 < (subStep radius S qd').blockCoords.length := by omega
        have hltb2 : qd'.2.2.1 < (subStep radius S qd').blockCoords.length := by omega
        have hltb3 : qd'.2.2.2 < (subStep radius S qd').blockCoords.length := by omega
        rcases hcover' ε δ hε hδ with hc | hc | hc | hc
        · refine ⟨(qd'.1, S.vertices.length + 1, S.vertices.length, S.vertices.length + 4),
            hmemq _ (by rw [hquads1]; simp), ?_⟩
          show IsCellAt qv u v (d + 1) _ _ _ _ _ _
          rw [hstable _ hlt0, hstable _ hlt1, hstable _ hltn, hstable _ hlt4]
          rw [hcg qd'.1 hi1, hv1, hv0, hv4]
          exact hc
        · refine ⟨(qd'.2.1, S.vertices.length + 2, S.vertices.length, S.vertices.length + 1),
            hmemq _ (by rw [hquads1]; simp), ?_⟩
          show IsCellAt qv u v (d + 1) _ _ _ _ _ _
          rw [hstable _ hltb1, hstable _ hlt2, hstable _ hltn, hstable _ hlt1]
          rw [hcg qd'.2.1 hi2, hv2, hv0, hv1]
          exact hc
        · refine ⟨(qd'.2.2.1, S.vertices.length + 3, S.vertices.length, S.vertices.length + 2),
            hmemq _ (by rw [hquads1]; simp), ?_⟩
          show IsCellAt qv u v (d + 1) _ _ _ _ _ _
          rw [hstable _ hltb2, hstable _ hlt3, hstable _ hltn, hstable _ hlt2]
          rw [hcg qd'.2.2.1 hi3, hv3, hv0, hv2]
          exact hc
        · refine ⟨(qd'.2.2.2, S.vertices.length + 4, S.vertices.length, S.vertices.length + 3),
            hmemq _ (by rw [hquads1]; simp), ?_⟩
          show IsCellAt qv u v (d + 1) _ _ _ _ _ _
          rw [hstable _ hltb3, hstable _ hlt4, hstable _ hltn, hstable _ hlt3]
          rw [hcg qd'.2.2.2 hi4, hv4, hv0, hv3]
          exact hc
      · intro a b ha1 ha2 hb1 hb2
        have hmemF : ∀ x ∈ (subStep radius S qd').blockCoords,
            x ∈ (qs.foldl (subStep radius) (subStep radius S qd')).blockCoords := by
          intro x hx
          rw [htf]
          exact List.mem_append_left _ hx
        apply hmemF
        have h9x := h9' a b ha1 ha2 hb1 hb2
        simp only [List.mem_cons, List.not_mem_nil, or_false, pushList] at h9x
        rw [hbc1]
        rcases h9x with hx | hx | hx | hx | hx | hx | hx | hx | hx
        · exact List.mem_append_left _ (by
            rw [hx, ← hg1]
            exact getD_mem _ _ (by omega))
        · exact List.mem_append_left _ (by
            rw [hx, ← hg2]
            exact getD_mem _ _ (by omega))
        · exact List.mem_append_left _ (by
            rw [hx, ← hg3]
            exact getD_mem _ _ (by omega))
        · exact List.mem_append_left _ (by
            rw [hx, ← hg4]
            exact getD_mem _ _ (by omega))
        · exact List.mem_append_right _ (by rw [hx]; simp [pushList])
        · exact List.mem_append_right _ (by rw [hx]; simp [pushList])
        · exact List.mem_append_right _ (by rw [hx]; simp [pushList])
        · exact List.mem_append_right _ (by rw [hx]; simp [pushList])
        · exact List.mem_append_right _ (by rw [hx]; simp [pushList])
    · exact hlastF qd' hqd' m1' m2' hm1' hm2' hcell'

theorem dist3_one_unit : V3.dist3 ((0 : ℝ), (0 : ℝ), (0 : ℝ)) ((1 : ℝ), (0 : ℝ), (0 : ℝ)) = 1 := by
  unfold V3.dist3 V3.len
  have h1 : (((0 : ℝ), (0 : ℝ), (0 : ℝ)) - ((1 : ℝ), (0 : ℝ), (0 : ℝ))).1 = -1 := by
    rw [Prod.fst_sub]; norm_num
  have h2 : (((0 : ℝ), (0 : ℝ), (0 : ℝ)) - ((1 : ℝ), (0 : ℝ), (0 : ℝ))).2.1 = 0 := by
    rw [Prod.snd_sub, Prod.fst_sub]; norm_num
  have h3 : (((0 : ℝ), (0 : ℝ), (0 : ℝ)) - ((1 : ℝ), (0 : ℝ), (0 : ℝ))).2.2 = 0 := by
    rw [Prod.snd_sub, Prod.snd_sub]; norm_num
  rw [h1, h2, h3]
  rw [show (-1 : ℝ) ^ 2 + (0 : ℝ) ^ 2 + (0 : ℝ) ^ 2 = 1 ^ 2 by norm_num]
  rw [Real.sqrt_sq (by norm_num)]

/-- Witness for C10: a fresh manager with one planet a single unit away
(inside its atmosphere of 3) regenerates it on the first tick. -/
theorem first_tick_regenerates_witness :
    ∃ a ∈ ({ PlanetManager.new (0, 0, 0) with planets := [pNear] } : PlanetManager).tick.2,
      a = RegenAction.surface 0 ∨ ∃ s, a = RegenAction.mesh 0 s := by
  refine first_tick_regenerates (0, 0, 0) [pNear] 0 (by norm_num) (Or.inl ?_)
  have hpos : (([pNear] : List Planet).getD 0 default).position = ((1 : ℝ), (0 : ℝ), (0 : ℝ)) := rfl
  have hatm : (([pNear] : List Planet).getD 0 default).atmosphere = 3 := by
    show (2 : ℝ) * 1.5 = 3
    norm_num
  rw [hpos, hatm, dist3_one_unit]
  norm_num

theorem InGrid_mono (qv u v : V3) (d : ℕ) (x : V3) (h : InGrid qv u v d x) :
    InGrid qv u v (d + 1) x := by
  obtain ⟨a, b, ha, hb, rfl⟩ := h
  have hpow : 2 ^ (d + 1) = 2 * 2 ^ d := by rw [pow_succ]; ring
  exact ⟨2 * a, 2 * b, by omega, by omega, gridPt_double qv u v d a b⟩

theorem quads_foldl_length (radius : ℝ) :
    ∀ (qs : List Quad) (S : Patch),
      (qs.foldl (subStep radius) S).quads.length = S.quads.length + 4 * qs.length := by
  intro qs
  induction qs with
  | nil => intro S; simp
  | cons qd qs ih =>
    intro S
    rw [List.foldl_cons, ih, (subStep_spec radius S qd).2.2.2]
    simp
    omega

theorem subdivide_quads_length (radius : ℝ) (p : Patch) :
    (subdivide radius p).quads.length = 4 * p.quads.length := by
  unfold subdivide
  rw [quads_foldl_length]
  simp

theorem subdivideIter_quads_length (radius : ℝ) :
    ∀ (d : ℕ) (p : Patch),
      (subdivideIter radius d p).quads.length = 4 ^ d * p.quads.length := by
  intro d
  induction d with
  | zero => intro p; simp [subdivideIter]
  | succ d ih =>
    intro p
    show (subdivideIter radius d (subdivide radius p)).quads.length = _
    rw [ih, subdivide_quads_length, pow_succ]
    ring

theorem SubInv_step (radius : ℝ) (qv u v : V3) (d : ℕ) (p : Patch)
    (h : SubInv qv u v d p) : SubInv qv u v (d + 1) (subdivide radius p) := by
  obtain ⟨hlen, hgrid, hgood, hcov, hcell⟩ := h
  have hpow : 2 ^ (d + 1) = 2 * 2 ^ d := by rw [pow_succ]; ring
  have h2d : 0 < 2 ^ d := by positivity
  obtain ⟨-, -, hlenF, hsubF, hgoodF, hlast⟩ :=
    subdivide_fold_inv radius qv u v d p.blockCoords p.quads
      { p with quads := [] } hgood ⟨[], by simp⟩ hlen
      (fun x hx => InGrid_mono qv u v d x (hgrid x hx))
      (fun qd hqd => absurd hqd (List.not_mem_nil _))
  refine ⟨hlenF, hsubF, hgoodF, ?_, ?_⟩
  · intro a b ha hb
    have hm1 : min (a / 2) (2 ^ d - 1) < 2 ^ d := by omega
    have hm2 : min (b / 2) (2 ^ d - 1) < 2 ^ d := by omega
    obtain ⟨qd, hqd, hqc⟩ := hcell _ _ hm1 hm2
    exact (hlast qd hqd _ _ hm1 hm2 hqc).2 a b (by omega) (by omega)
      (by omega) (by omega)
  · intro m1' m2' hm1' hm2'
    have hm1 : m1' / 2 < 2 ^ d := by omega
    have hm2 : m2' / 2 < 2 ^ d := by omega
    obtain ⟨qd, hqd, hqc⟩ := hcell _ _ hm1 hm2
    obtain ⟨qd', hqd', hqc'⟩ := (hlast qd hqd _ _ hm1 hm2 hqc).1
      (m1' % 2) (m2' % 2) (by omega) (by omega)
    refine ⟨qd', hqd', ?_⟩
    rw [show 2 * (m1' / 2) + m1' % 2 = m1' from by omega,
      show 2 * (m2' / 2) + m2' % 2 = m2' from by omega] at hqc'
    exact hqc'

theorem subdivideIter_inv (radius : ℝ) (qv u v : V3) :
    ∀ (d e : ℕ) (p : Patch), SubInv qv u v e p →
      SubInv qv u v (e + d) (subdivideIter radius d p) := by
  intro d
  induction d with
  | zero => intro e p h; exact h
  | succ d ih =>
    intro e p h
    show SubInv qv u v (e + (d + 1)) (subdivideIter radius d (subdivide radius p))
    rw [show e + (d + 1) = e + 1 + d from by omega]
    exact ih (e + 1) _ (SubInv_step radius qv u v e p h)

theorem gridPt_root_00 (qv u v : V3) : gridPt qv u v 0 0 0 = qv := by
  simp [gridPt]

theorem gridPt_root_10 (qv u v : V3) : gridPt qv u v 0 1 0 = qv + u := by
  simp [gridPt]

theorem gridPt_root_11 (qv u v : V3) : gridPt qv u v 0 1 1 = qv + u + v := by
  simp [gridPt]

theorem gridPt_root_01 (qv u v : V3) : gridPt qv u v 0 0 1 = qv + v := by
  simp [gridPt]

theorem SubInv_root (qv u v : V3) (p : Patch)
    (hlen : p.vertices.length = 4)
    (hbc : p.blockCoords = [qv, qv + u, qv + u + v, qv + v])
    (hq : p.quads = [(0, 1, 2, 3)]) : SubInv qv u v 0 p := by
  have hg0 : p.blockCoords.getD 0 default = qv := by rw [hbc]; rfl
  have hg1 : p.blockCoords.getD 1 default = qv + u := by rw [hbc]; rfl
  have hg2 : p.blockCoords.getD 2 default = qv + u + v := by rw [hbc]; rfl
  have hg3 : p.blockCoords.getD 3 default = qv + v := by rw [hbc]; rfl
  refine ⟨by rw [hlen, hbc]; rfl, ?_, ?_, ?_, ?_⟩
  · intro x hx
    rw [hbc] at hx
    simp only [List.mem_cons, List.not_mem_nil, or_false] at hx
    rcases hx with h | h | h | h
    · exact ⟨0, 0, by norm_num, by norm_num, by rw [h, gridPt_root_00]⟩
    · exact ⟨1, 0, by norm_num, by norm_num, by rw [h, gridPt_root_10]⟩
    · exact ⟨1, 1, by norm_num, by norm_num, by rw [h, gridPt_root_11]⟩
    · exact ⟨0, 1, by norm_num, by norm_num, by rw [h, gridPt_root_01]⟩
  · intro qd hqd
    rw [hq] at hqd
    simp only [List.mem_cons, List.not_mem_nil, or_false] at hqd
    subst hqd
    refine ⟨by rw [hbc]; norm_num, by rw [hbc]; norm_num, by rw [hbc]; norm_num,
      by rw [hbc]; norm_num, 0, 0, by norm_num, by norm_num, Or.inl ?_⟩
    rw [show ((0, 1, 2, 3) : Quad).1 = 0 from rfl]
    refine ⟨?_, ?_, ?_, ?_⟩
    · rw [hg0, gridPt_root_00]
    · rw [hg1, gridPt_root_10]
    · rw [hg2, gridPt_root_11]
    · rw [hg3, gridPt_root_01]
  · intro a b ha hb
    rw [hbc]
    interval_cases a <;> interval_cases b
    · rw [gridPt_root_00]; exact List.mem_cons_self _ _
    · rw [gridPt_root_01]; simp
    · rw [gridPt_root_10]; simp
    · rw [gridPt_root_11]; simp
  · intro m1 m2 hm1 hm2
    interval_cases m1
    interval_cases m2
    refine ⟨(0, 1, 2, 3), by rw [hq]; exact List.mem_cons_self _ _, Or.inl ?_⟩
    refine ⟨?_, ?_, ?_, ?_⟩
    · rw [hg0, gridPt_root_00]
    · rw [hg1, gridPt_root_10]
    · rw [hg2, gridPt_root_11]
    · rw [hg3, gridPt_root_01]

theorem blockCoords_card (qv u v : V3) (hind : indepUV u v) (d : ℕ) (p : Patch)
    (hinv : SubInv qv u v d p) : p.blockCoords.toFinset.card = (2 ^ d + 1) ^ 2 := by
  obtain ⟨-, hgrid, -, hcov, -⟩ := hinv
  have hset : p.blockCoords.toFinset =
      Finset.image (fun ab : ℕ × ℕ => gridPt qv u v d ab.1 ab.2)
        (Finset.range (2 ^ d + 1) ×ˢ Finset.range (2 ^ d + 1)) := by
    ext x
    simp only [List.mem_toFinset, Finset.mem_image, Finset.mem_product, Finset.mem_range]
    constructor
    · intro hx
      obtain ⟨a, b, ha, hb, rfl⟩ := hgrid x hx
      exact ⟨(a, b), ⟨by omega, by omega⟩, rfl⟩
    · rintro ⟨⟨a, b⟩, ⟨ha, hb⟩, rfl⟩
      exact hcov a b (by omega) (by omega)
  have hinj : Set.InjOn (fun ab : ℕ × ℕ => gridPt qv u v d ab.1 ab.2)
      ((Finset.range (2 ^ d + 1) ×ˢ Finset.range (2 ^ d + 1) : Finset (ℕ × ℕ)) :
        Set (ℕ × ℕ)) := by
    rintro ⟨a, b⟩ _ ⟨a', b'⟩ _ heq
    obtain ⟨h1, h2⟩ := gridPt_inj qv u v hind d a b a' b' heq
    simp only [Prod.mk.injEq]
    exact ⟨h1, h2⟩
  rw [hset, Finset.card_image_of_injOn hinj, Finset.card_product, Finset.card_range]
  ring

/-- C4: starting from a patch holding one root quad over the cell
spanned by `u` and `v` (block corners `qv`, `qv+u`, `qv+u+v`, `qv+v` and
four vertices in step with them), `d` uniform `subdivide` passes yield
exactly `4^d` quads and exactly `(2^d+1)^2` unique vertices, where
vertices are identified by their pre-displacement block coordinates (the
parallel `vertices` and `blockCoords` sequences stay in step, and
distinct grid vertices carry distinct block coordinates whenever the
cell is non-degenerate). -/
theorem subdivide_quad_vertex_counts (radius : ℝ) (qv u v : V3) (p : Patch) (d : ℕ)
    (hind : indepUV u v)
    (hlen : p.vertices.length = 4)
    (hbc : p.blockCoords = [qv, qv + u, qv + u + v, qv + v])
    (hq : p.quads = [(0, 1, 2, 3)]) :
    (subdivideIter radius d p).quads.length = 4 ^ d ∧
    (subdivideIter radius d p).blockCoords.toFinset.card = (2 ^ d + 1) ^ 2 ∧
    (subdivideIter radius d p).vertices.length =
      (subdivideIter radius d p).blockCoords.length := by
  have hd := subdivideIter_inv radius qv u v d 0 p (SubInv_root qv u v p hlen hbc hq)
  rw [zero_add] at hd
  refine ⟨?_, blockCoords_card qv u v hind d _ hd, hd.1⟩
  rw [subdivideIter_quads_length, hq]
  simp

/-- Witness for C4 at `d = 1`: one subdivision of the unit root patch
yields 4 quads and 9 distinct block coordinates. -/
theorem subdivide_quad_vertex_counts_witness :
    indepUV ((1 : ℝ), (0 : ℝ), (0 : ℝ)) ((0 : ℝ), (1 : ℝ), (0 : ℝ)) ∧
    (subdivideIter 1 1 unitPatch).quads.length = 4 ^ 1 ∧
    (subdivideIter 1 1 unitPatch).blockCoords.toFinset.card = (2 ^ 1 + 1) ^ 2 ∧
    (subdivideIter 1 1 unitPatch).vertices.length =
      (subdivideIter 1 1 unitPatch).blockCoords.length := by
  have hind : indepUV ((1 : ℝ), (0 : ℝ), (0 : ℝ)) ((0 : ℝ), (1 : ℝ), (0 : ℝ)) := by
    intro s t hst
    have h1 := congrArg Prod.fst hst
    have h2 := congrArg (fun w : V3 => w.2.1) hst
    simp only [Prod.fst_add, Prod.snd_add, Prod.smul_mk, Prod.mk_add_mk, smul_eq_mul,
      mul_one, mul_zero, add_zero, zero_add, Prod.fst_zero, Prod.snd_zero] at h1 h2
    exact ⟨h1, h2⟩
  have happ := subdivide_quad_vertex_counts 1 ((0 : ℝ), (0 : ℝ), (0 : ℝ))
    ((1 : ℝ), (0 : ℝ), (0 : ℝ)) ((0 : ℝ), (1 : ℝ), (0 : ℝ)) unitPatch 1 hind rfl
    (by norm_num [unitPatch, Prod.ext_iff]) rfl
  exact ⟨hind, happ.1, happ.2.1, happ.2.2⟩

end SpaceGame
